import Mathlib

/-!
Shallow embedding of the TeX-log parsing engine in Support/bin/texparser3.py.

Python strings are modelled as lists of characters (`Str`); the raw input
stream is the list of physical lines still to be read, each line carrying its
trailing newline character exactly as Python's `readline` returns it
(end-of-file is the empty list, and a read at end-of-file yields the empty
string, which is falsy in Python).  Display side effects (`print`) are not
modelled; the observable state of every parser instance (its counters and
flags, the file stack, the buffers of the stream-wrapper chain, and the
position of the shared stream cursor) is modelled exactly.  Regular
expressions compiled with `re.compile` and used through `re.match`,
`re.search` or `findall` are translated pattern by pattern into executable
character-list matchers with Python's anchoring, greediness and character
class semantics (ASCII ranges for `\w`, `\s`, `\d`, as in the log texts the
tool consumes).
-/

/-- A Python string: a list of characters. -/
abbrev Str := List Char

/-- `line.rstrip("\n")`: remove all trailing newline characters. -/
def rstripNL (s : Str) : Str := (s.reverse.dropWhile (fun c => c == '\n')).reverse

/-- Python's whitespace class (`str.lstrip()` with no argument, and `\s`). -/
def isSpaceChar (c : Char) : Bool :=
  c == ' ' || c == '\t' || c == '\n' || c == '\r' || c == '\x0b' || c == '\x0c'

/-- `line.lstrip()`: remove leading whitespace. -/
def lstripWS (s : Str) : Str := s.dropWhile isSpaceChar

/-- `[a-zA-Z]`. -/
def isAsciiAlpha (c : Char) : Bool :=
  (97 ≤ c.toNat && c.toNat ≤ 122) || (65 ≤ c.toNat && c.toNat ≤ 90)

/-- `\d`. -/
def isDigitChar (c : Char) : Bool := 48 ≤ c.toNat && c.toNat ≤ 57

/-- `\w`. -/
def isWordChar (c : Char) : Bool := isAsciiAlpha c || isDigitChar c || c == '_'

/-- The filename character class `[\w/\.\-]` of `LaTexParser.parseLine`. -/
def isFnChar (c : Char) : Bool := isWordChar c || c == '/' || c == '.' || c == '-'

/-- `re.search` for a fixed literal: does `pat` occur as a substring of `s`? -/
def containsSub (pat : Str) : Str → Bool
  | [] => pat.isEmpty
  | s@(_ :: t) => pat.isPrefixOf s || containsSub pat t

/-- `str.strip(c)` for a quote character: remove the character from both ends. -/
def stripQuotes (s : Str) : Str :=
  ((s.dropWhile (fun c => c == '"')).reverse.dropWhile (fun c => c == '"')).reverse

/-! ### String literals appearing in the patterns of texparser3.py -/

def sThisIs : Str := "This is".data

def sDocumentClass : Str := "Document Class".data

def sUseOpen : Str := "<use ".data

def sOutputWritten : Str := "Output written on ".data

def sLaTeXWarningColon : Str := "LaTeX Warning:".data

def sLaTeXWarning : Str := "LaTeX Warning".data

def sPackageSp : Str := "Package ".data

def sSpWarningColon : Str := " Warning:".data

def sInputLine : Str := "input line ".data

def sPdfTeXWarning : Str := "pdfTeX warning".data

def sLaTeXFontWarningColon : Str := "LaTeX Font Warning:".data

def sOverfull : Str := "Overfull".data

def sWide : Str := "wide".data

def sUnderfull : Str := "Underfull".data

def sBadness : Str := "badness".data

def sSpLaTeXErrorColon : Str := " LaTeX Error:".data

def sSpEmergencyStop : Str := " Emergency stop".data

def sTranscriptWritten : Str := "Transcript written on ".data

def sErrorPdflatex : Str := "Error: pdflatex".data

def sFatalOccurred : Str := " ==> Fatal error occurred".data

def sArrows : Str := "==>".data

def sErrLow : Str := "error".data

def sErrCap : Str := "Error".data

def sWarningLow : Str := "warning".data

def sTwoSpaces : Str := "  ".data

def sDotTex : Str := ".tex".data

def sWarningDashDash : Str := "Warning--".data

def sDashDashLine : Str := "--line ".data

def sSpOfFileSp : Str := " of file ".data

def sIFoundNo : Str := "I found no \\".data

def sSpCommand : Str := " command".data

def sICouldntOpenStyle : Str := "I couldn\x27t open style file".data

def sICouldntOpenSp : Str := "I couldn\x27t open ".data

def sSpFile : Str := " file".data

def sThisIsBibTeX : Str := "This is BibTeX".data

def sTheStyle : Str := "The style".data

def sDatabase : Str := "Database".data

def sDashes : Str := "---".data

def sInputIndexFile : Str := "Input index file ".data

def sSpNotFound : Str := " not found".data

def sThisIsSp : Str := "This is ".data

def sThisIsMakeindex : Str := "This is makeindex".data

def sPdfTeXk : Str := "pdfTeXk".data

def sLatex2e : Str := "latex2e".data

def sLatex : Str := "latex".data

def sXeTeXk : Str := "XeTeXk".data

def sLatexmkTargets : Str := "Latexmk: All targets (".data

def sSpAreUpToDate : Str := " are up-to-date".data

def sLatexmk : Str := "Latexmk".data

def sRunNumber : Str := "Run number".data

/-! ### The statement-stream normalizer chain (StreamWrapper subclasses)

`LaTexParser.setInput` decorates the raw stream as
`NoMultilinePackageWarning(NoMultilineWarning(LinebreakWarning(NoLinebreak80(stream))))`.
Each stage holds at most one buffered statement; the whole chain is a pure
state: the remaining raw lines plus the three buffers.  The merging loops of
the last two stages are written with an explicit fuel argument that every
call site instantiates with a bound larger than the number of reads the loop
can possibly perform (each iteration consumes a buffered line or at least one
raw line, and end-of-input ends the loop), so the fuel-exhaustion branch is
never taken. -/

structure Chain where
  raw : List Str
  lbBuf : Str
  mwBuf : Str
  pwBuf : Str
deriving DecidableEq

/-- A freshly constructed chain over a raw stream, all buffers empty. -/
def mkChain (lines : List Str) : Chain := ⟨lines, [], [], []⟩

/-- `NoLinebreak80.readline`: concatenate consecutive physical lines of
exactly 80 characters (newline included), stripping the internal newlines,
until a shorter line or end-of-input.  `acc` is the statement built so far. -/
def nl80ReadAux : List Str → Str → Str × List Str
  | [], acc => (acc, [])
  | line :: rest, acc =>
    if line.isEmpty then (acc, rest)
    else if line.length = 80 then nl80ReadAux rest (acc ++ rstripNL line)
    else (acc ++ line, rest)

/-- The continuation condition of `LinebreakWarning.pattern`'s second group,
`[a-zA-Z]*[Tt]e[Xx] (?:warning|error).*`: a run of letters, then `TeX `/`teX `
(first and third letter case-insensitive), then `warning` or `error`. -/
def texWordHere : Str → Bool
  | c1 :: 'e' :: c3 :: ' ' :: rest =>
    (c1 == 'T' || c1 == 't') && (c3 == 'X' || c3 == 'x') &&
      (sWarningLow.isPrefixOf rest || sErrLow.isPrefixOf rest)
  | _ => false

def lbTail : Str → Bool
  | [] => false
  | s@(c :: t) => texWordHere s || (isAsciiAlpha c && lbTail t)

/-- Validity of a split of `l` at position `p` for `LinebreakWarning.pattern`
`(.*[^a-zA-Z])([a-zA-Z]*[Tt]e[Xx] (?:warning|error).*)` under `re.match`:
group 1 is `l[0:p]`, whose last character must not be a letter and whose
other characters are matched by `.*` (which cannot cross a newline), and
group 2 starts at `p`. -/
def lbValid (l : Str) (p : Nat) : Bool :=
  !(l.take (p - 1)).contains '\n' &&
    (match l.drop (p - 1) with
     | c :: _ => !isAsciiAlpha c && lbTail (l.drop p)
     | [] => false)

/-- `LinebreakWarning.pattern.match(line)`: the greedy `.*` of group 1 makes
the split point the largest valid one; group 2 is cut at the newline (`.`
does not match a newline, and `re.match` needs no full match). -/
def lbSplit (l : Str) : Option (Str × Str) :=
  match ((List.range l.length).reverse.map (fun q => q + 1)).find? (lbValid l) with
  | some p => some (l.take p, (l.drop p).takeWhile (fun c => c != '\n'))
  | none => none

/-- `LinebreakWarning.readline`. -/
def lbRead (c : Chain) : Str × Chain :=
  if !c.lbBuf.isEmpty then (c.lbBuf, { c with lbBuf := [] })
  else
    let r := nl80ReadAux c.raw []
    if r.1.isEmpty then ([], { c with raw := r.2 })
    else
      match lbSplit r.1 with
      | some g => (g.1, { c with raw := r.2, lbBuf := g.2 })
      | none => (r.1, { c with raw := r.2 })

/-- `NoMultilineWarning.getline`. -/
def mwGet (c : Chain) : Str × Chain :=
  if !c.mwBuf.isEmpty then (c.mwBuf, { c with mwBuf := [] }) else lbRead c

/-- The continuation-merging loop of `NoMultilineWarning.readline`:
continuation lines start with two spaces and are appended after a single
space, the accumulated statement first losing its trailing newline; the
first non-indented line is buffered for the next read. -/
def mwLoop : Nat → Str → Chain → Str × Chain
  | 0, st, c => (st, c)
  | fuel + 1, st, c =>
    let r := mwGet c
    if sTwoSpaces.isPrefixOf r.1 then
      mwLoop fuel (rstripNL st ++ ' ' :: lstripWS r.1) r.2
    else (st, { r.2 with mwBuf := r.1 })

/-- `NoMultilineWarning.readline`. -/
def mwRead (c : Chain) : Str × Chain :=
  let r := mwGet c
  if r.1.isEmpty then (r.1, r.2)
  else if sLaTeXWarning.isPrefixOf r.1 then mwLoop (2 * r.2.raw.length + 2) r.1 r.2
  else (r.1, r.2)

/-- `Package (\w+) Warning:.*` (`NoMultilinePackageWarning.firstlinere`, also
patterns 6 and 8 of `LaTexParser`): after `Package ` a maximal nonempty run
of word characters must be followed immediately by ` Warning:`; the run is
group 1. -/
def pkgWarnIntro (l : Str) : Option Str :=
  if sPackageSp.isPrefixOf l then
    let n := (l.drop sPackageSp.length).takeWhile isWordChar
    if n.isEmpty then none
    else if sSpWarningColon.isPrefixOf (l.drop (sPackageSp.length + n.length)) then some n
    else none
  else none

/-- `NoMultilinePackageWarning.getline`. -/
def pwGet (c : Chain) : Str × Chain :=
  if !c.pwBuf.isEmpty then (c.pwBuf, { c with pwBuf := [] }) else mwRead c

/-- The continuation-merging loop of `NoMultilinePackageWarning.readline`:
continuation lines start with the literal `(NAME)`, which is stripped before
the left-trimmed remainder is appended after a single space. -/
def pwLoop : Nat → Str → Str → Chain → Str × Chain
  | 0, _, st, c => (st, c)
  | fuel + 1, contstart, st, c =>
    let r := pwGet c
    if contstart.isPrefixOf r.1 then
      pwLoop fuel contstart (rstripNL st ++ ' ' :: lstripWS (r.1.drop contstart.length)) r.2
    else (st, { r.2 with pwBuf := r.1 })

/-- `NoMultilinePackageWarning.readline`. -/
def pwRead (c : Chain) : Str × Chain :=
  let r := pwGet c
  if r.1.isEmpty then (r.1, r.2)
  else
    match pkgWarnIntro r.1 with
    | some name => pwLoop (4 * r.2.raw.length + 4) ('(' :: (name ++ [')'])) r.1 r.2
    | none => (r.1, r.2)

/-- `self.input_stream.readline()` as seen by `LaTexParser`: one read from the
top of the decorator chain. -/
def chainRead (c : Chain) : Str × Chain := pwRead c

/-- Read the whole chain to exhaustion, collecting the raw statements it
yields (newlines included), with fuel. -/
def chainReadAllF : Nat → Chain → List Str
  | 0, _ => []
  | fuel + 1, c =>
    let r := chainRead c
    if r.1.isEmpty then [] else r.1 :: chainReadAllF fuel r.2

/-- All statements the normalizer chain produces from a raw stream. -/
def chainStatements (lines : List Str) : List Str :=
  chainReadAllF (8 * lines.length + 8) (mkChain lines)

/-- The statements as dispatched by `TexParser.parseStream` (trailing
newlines stripped). -/
def normalizeStatements (lines : List Str) : List Str :=
  (chainStatements lines).map rstripNL

/-! ### Pattern dispatch

In the source each parser holds an ordered list of
`(compiled pattern, bound handler)` pairs and `TexParser.parseLine` fires the
handler of the first pattern whose `match` succeeds.  Here each pattern is an
executable matcher returning `some tag` (the tag identifies the handler, with
the captures the handler's state update needs), and `firstMatch` is the
first-match-wins loop. -/

def firstMatch {α : Type} : List (Str → Option α) → Str → Option α
  | [], _ => none
  | p :: ps, l =>
    match p l with
    | some t => some t
    | none => firstMatch ps l

/-! #### LaTexParser pattern table (texparser3.py lines 177-198) -/

/-- Handlers of `LaTexParser`, as targets of its pattern table. -/
inductive LtxTag : Type
  | info
  | detectInclude
  | outputInfo (g1 : Str)
  | handleWarning
  | warning
  | handleFileLineWarning
  | warn2
  | handleError
  | finishRun
  | pdfLatexError
  | handleOldStyleErrors
  | fatal
deriving DecidableEq

/-- `.*\<use (.*?)\>`: an occurrence of `<use ` with a `>` somewhere after it. -/
def useIncB : Str → Bool
  | [] => false
  | s@(_ :: t) => (sUseOpen.isPrefixOf s && (s.drop sUseOpen.length).contains '>') || useIncB t

/-- Split for `Output written on (.*) (\(.*\))`: on the text after the fixed
prefix, the greedy `.*` of group 1 picks the largest `p` such that a space
and `(` follow at `p` with a `)` somewhere later; returns group 1. -/
def owValid (s : Str) (p : Nat) : Bool :=
  match s.drop p with
  | ' ' :: '(' :: rest => rest.contains ')'
  | _ => false

def owSplit (s : Str) : Option Str :=
  ((List.range (s.length + 1)).reverse.find? (owValid s)).map (fun p => s.take p)

/-- `input line (\d+)(\.|$)` at the head of `s`: the literal, at least one
digit, and the digit run followed by `.` or the end of the line. -/
def inputLineHere (s : Str) : Bool :=
  sInputLine.isPrefixOf s &&
    (let t := s.drop sInputLine.length
     let d := t.takeWhile isDigitChar
     !d.isEmpty &&
       (match t.drop d.length with
        | [] => true
        | c :: _ => c == '.'))

/-- `.*?input line (\d+)(\.|$)`: such an occurrence anywhere in `s`. -/
def hasInputLine : Str → Bool
  | [] => false
  | s@(_ :: t) => inputLineHere s || hasInputLine t

/-- `([^:]*):(\d+):` followed by `suffix`, anchored at the start of the line:
everything before the first colon, a nonempty digit run, a second colon, then
`suffix` immediately. -/
def fileLineThen (suffix : Str) (l : Str) : Bool :=
  let a := l.takeWhile (fun c => c != ':')
  match l.drop a.length with
  | ':' :: r1 =>
    let d := r1.takeWhile isDigitChar
    !d.isEmpty &&
      (match r1.drop d.length with
       | ':' :: r2 => suffix.isPrefixOf r2
       | _ => false)
  | _ => false

/-- `([^:]*):(\d+):\s+` followed by `suffix`, anchored at the start: as
`fileLineThen` but with a nonempty whitespace run before `suffix`. -/
def fileLineWsThen (suffix : Str) (l : Str) : Bool :=
  let a := l.takeWhile (fun c => c != ':')
  match l.drop a.length with
  | ':' :: r1 =>
    let d := r1.takeWhile isDigitChar
    !d.isEmpty &&
      (match r1.drop d.length with
       | ':' :: r2 =>
         let w := r2.takeWhile isSpaceChar
         !w.isEmpty && suffix.isPrefixOf (r2.drop w.length)
       | _ => false)
  | _ => false

/-- The tail of `.*?([^:]+\.\w+):(\d+):\s+(.*)` from just after the dot of
the file name: a nonempty word run, `:`, a nonempty digit run, `:`, then at
least one whitespace character (the trailing `(.*)` matches anything). -/
def fleTail (t : Str) : Bool :=
  let w := t.takeWhile isWordChar
  !w.isEmpty &&
    (match t.drop w.length with
     | ':' :: u =>
       let d := u.takeWhile isDigitChar
       !d.isEmpty &&
         (match u.drop d.length with
          | ':' :: v => !(v.takeWhile isSpaceChar).isEmpty
          | _ => false)
     | _ => false)

/-- `.*?([^:]+\.\w+):(\d+):\s+(.*)`: somewhere in the line, a dot preceded by
a non-colon character and followed by `fleTail`. -/
def hasFLE : Str → Bool
  | a :: c :: t => (a != ':' && c == '.' && fleTail t) || hasFLE (c :: t)
  | _ => false

/-- `\s+==>`: a nonempty whitespace run from the start followed by `==>`. -/
def wsArrows (l : Str) : Bool :=
  let w := l.takeWhile isSpaceChar
  !w.isEmpty && sArrows.isPrefixOf (l.drop w.length)

def pLtxThisIs (l : Str) : Option LtxTag :=
  if sThisIs.isPrefixOf l then some .info else none

def pLtxDocumentClass (l : Str) : Option LtxTag :=
  if sDocumentClass.isPrefixOf l then some .info else none

def pLtxUse (l : Str) : Option LtxTag :=
  if useIncB l then some .detectInclude else none

def pLtxOutputWritten (l : Str) : Option LtxTag :=
  if sOutputWritten.isPrefixOf l then
    match owSplit (l.drop sOutputWritten.length) with
    | some g1 => some (.outputInfo g1)
    | none => none
  else none

def pLtxWarningLine (l : Str) : Option LtxTag :=
  if sLaTeXWarningColon.isPrefixOf l && hasInputLine (l.drop sLaTeXWarningColon.length) then
    some .handleWarning
  else none

def pLtxPkgWarningLine (l : Str) : Option LtxTag :=
  match pkgWarnIntro l with
  | some n =>
    if hasInputLine (l.drop (sPackageSp.length + n.length + sSpWarningColon.length)) then
      some .handleWarning
    else none
  | none => none

def pLtxWarning (l : Str) : Option LtxTag :=
  if sLaTeXWarningColon.isPrefixOf l then some .warning else none

def pLtxPkgWarning (l : Str) : Option LtxTag :=
  if (pkgWarnIntro l).isSome then some .warning else none

def pLtxFileLinePdfWarning (l : Str) : Option LtxTag :=
  if fileLineWsThen sPdfTeXWarning l then some .handleFileLineWarning else none

def pLtxPdfTeXWarning (l : Str) : Option LtxTag :=
  if containsSub sPdfTeXWarning l then some .warning else none

def pLtxFontWarning (l : Str) : Option LtxTag :=
  if sLaTeXFontWarningColon.isPrefixOf l then some .warning else none

def pLtxOverfull (l : Str) : Option LtxTag :=
  if sOverfull.isPrefixOf l && containsSub sWide (l.drop sOverfull.length) then some .warn2
  else none

def pLtxUnderfull (l : Str) : Option LtxTag :=
  if sUnderfull.isPrefixOf l && containsSub sBadness (l.drop sUnderfull.length) then some .warn2
  else none

def pLtxLaTeXError (l : Str) : Option LtxTag :=
  if fileLineThen sSpLaTeXErrorColon l then some .handleError else none

def pLtxEmergencyStop (l : Str) : Option LtxTag :=
  if fileLineThen sSpEmergencyStop l then some .handleError else none

def pLtxFileLineError (l : Str) : Option LtxTag :=
  if hasFLE l then some .handleError else none

def pLtxTranscript (l : Str) : Option LtxTag :=
  if sTranscriptWritten.isPrefixOf l && !(l.drop sTranscriptWritten.length).isEmpty
      && l.getLastD ' ' == '.' then
    some .finishRun
  else none

def pLtxErrorPdflatex (l : Str) : Option LtxTag :=
  if sErrorPdflatex.isPrefixOf l then some .pdfLatexError else none

def pLtxOldStyle (l : Str) : Option LtxTag :=
  match l with
  | '!' :: _ => some .handleOldStyleErrors
  | _ => none

def pLtxFatal (l : Str) : Option LtxTag :=
  if wsArrows l then some .fatal else none

/-- The pattern table of `LaTexParser.__init__`, in declaration order. -/
def ltxMatchers : List (Str → Option LtxTag) :=
  [pLtxThisIs, pLtxDocumentClass, pLtxUse, pLtxOutputWritten, pLtxWarningLine,
   pLtxPkgWarningLine, pLtxWarning, pLtxPkgWarning, pLtxFileLinePdfWarning,
   pLtxPdfTeXWarning, pLtxFontWarning, pLtxOverfull, pLtxUnderfull,
   pLtxLaTeXError, pLtxEmergencyStop, pLtxFileLineError, pLtxTranscript,
   pLtxErrorPdflatex, pLtxOldStyle, pLtxFatal]

/-- Which handler (if any) a statement is dispatched to by `LaTexParser`. -/
def ltxTag (l : Str) : Option LtxTag := firstMatch ltxMatchers l

/-- `re.search('[Ee]rror', line)` in `handleOldStyleErrors`: the line contains
`error` or `Error` as a substring. -/
def oldStyleIsError (l : Str) : Bool := containsSub sErrLow l || containsSub sErrCap l

/-! ### The file stack tracker of LaTexParser (texparser3.py lines 206-234) -/

/-- The extension part of `os.path.splitext(p)` (posixpath): the suffix from
the last dot of the basename, unless every character of the basename before
that dot is itself a dot. -/
def extSplit (p : Str) : Str :=
  let base := (p.reverse.takeWhile (fun c => c != '/')).reverse
  if (base.dropWhile (fun c => c == '.')).contains '.' then
    '.' :: (base.reverse.takeWhile (fun c => c != '.')).reverse
  else []

/-- `findall` of `([\(\)])([\w/\.\-])*` over a line: each `(` or `)` marker
with the filename-shaped token following it, left to right; scanning resumes
after the token.  Fuel is the length of the text, which bounds the number of
characters examined. -/
def findMarksAux : Nat → Str → List (Char × Str)
  | 0, _ => []
  | _, [] => []
  | fuel + 1, c :: rest =>
    if c == '(' || c == ')' then
      (c, rest.takeWhile isFnChar) :: findMarksAux fuel (rest.dropWhile isFnChar)
    else findMarksAux fuel rest

def findMarks (l : Str) : List (Char × Str) := findMarksAux l.length l

/-- The state of a `LaTexParser` instance: the `TexParser` counters and flags
plus the file-stack tracker fields and the output-file name.
`badRunInvoked` records that `wrapup` called the `badRun` hook (whose own
effect is display only). -/
structure LaTexState where
  done : Bool
  numErrs : Nat
  numWarns : Nat
  isFatal : Bool
  numRuns : Nat
  badRunInvoked : Bool
  fileName : Option Str
  fileStack : List Str
  currentFile : Str
  outputFile : Str
  exts : List Str
deriving DecidableEq

/-- `LaTexParser.__init__` (a `None` or empty `fileName` is falsy, so it
seeds neither the stack nor the extension set; `len(os.path.splitext(f))` is
always 2, so a truthy `fileName` always contributes its extension). -/
def ltxInit (fn : Option Str) : LaTexState :=
  { done := false, numErrs := 0, numWarns := 0, isFatal := false, numRuns := 0,
    badRunInvoked := false, fileName := fn,
    fileStack := match fn with | some f => [f] | none => [],
    currentFile := [], outputFile := [],
    exts := sDotTex :: (match fn with | some f => [extSplit f] | none => []) }

/-- `LaTexParser.getLastFile`: the last entry of the stack whose extension is
in the tracked set, or the empty string. -/
def getLastFile (s : LaTexState) : Str :=
  match s.fileStack.reverse.find? (fun f => decide (extSplit f ∈ s.exts)) with
  | some f => f
  | none => []

/-- Processing of one open/close marker in `LaTexParser.parseLine`: push on
`(`; on `)` pop only if the stack is nonempty; after a push or pop, the
active file is recomputed and `currentFile` updated when it changed (the
enter/resume notification itself is display only). -/
def procMark (s : LaTexState) (m : Char × Str) : LaTexState :=
  if m.1 == '(' then
    let s1 := { s with fileStack := s.fileStack ++ [m.2] }
    let nf := getLastFile s1
    if nf ≠ s1.currentFile then { s1 with currentFile := nf } else s1
  else
    if 0 < s.fileStack.length then
      let s1 := { s with fileStack := s.fileStack.dropLast }
      let nf := getLastFile s1
      if nf ≠ s1.currentFile then { s1 with currentFile := nf } else s1
    else s

/-- The marker scan at the head of `LaTexParser.parseLine`. -/
def procMarks (s : LaTexState) (l : Str) : LaTexState :=
  (findMarks l).foldl procMark s

/-! ### LaTexParser dispatch and run loop -/

/-- `LaTexParser.parseLine` followed by the matched handler's state update:
the marker scan, then first-match dispatch.  `pdfLatexError` reads one extra
statement from the decorated stream on the fly, so the chain is threaded
through. -/
def ltxStep (s0 : LaTexState) (l : Str) (c : Chain) : LaTexState × Chain :=
  let s := procMarks s0 l
  match ltxTag l with
  | some .info => (s, c)
  | some .detectInclude => (s, c)
  | some (.outputInfo g1) => ({ s with outputFile := stripQuotes g1 }, c)
  | some .handleWarning => ({ s with numWarns := s.numWarns + 1 }, c)
  | some .warning => ({ s with numWarns := s.numWarns + 1 }, c)
  | some .handleFileLineWarning => ({ s with numWarns := s.numWarns + 1 }, c)
  | some .warn2 => (s, c)
  | some .handleError => ({ s with numErrs := s.numErrs + 1 }, c)
  | some .finishRun => ({ s with done := true }, c)
  | some .pdfLatexError =>
    let s1 := { s with numErrs := s.numErrs + 1 }
    let r := chainRead c
    if !r.1.isEmpty && sFatalOccurred.isPrefixOf r.1 then
      ({ s1 with isFatal := true }, r.2)
    else (s1, r.2)
  | some .handleOldStyleErrors =>
    if oldStyleIsError l then ({ s with numErrs := s.numErrs + 1 }, c)
    else ({ s with numWarns := s.numWarns + 1 }, c)
  | some .fatal => ({ s with isFatal := true }, c)
  | none => (s, c)

/-- `TexParser.wrapup` for a `LaTexParser`: call `badRun` when the done flag
was never set, and default `numRuns` to one. -/
def ltxWrapup (s : LaTexState) : LaTexState :=
  let s1 := if s.done = false then { s with badRunInvoked := true } else s
  if s1.numRuns = 0 then { s1 with numRuns := 1 } else s1

/-- `TexParser.parseStream` for a `LaTexParser`: read a statement, stop when
it is empty (end of input) or the done flag is already set — the statement
read after the flag was set is consumed but not dispatched — otherwise strip
the trailing newline, dispatch, and continue.  The trace collects the
dispatched statements in order.  Fuel bounds the number of iterations; call
sites give it more than the chain can ever deliver. -/
def ltxGoF : Nat → LaTexState → Chain → LaTexState × Chain × List Str
  | 0, s, c => (s, c, [])
  | fuel + 1, s, c =>
    let rd := chainRead c
    if rd.1.isEmpty || s.done then (ltxWrapup s, rd.2, [])
    else
      let l := rstripNL rd.1
      let st := ltxStep s l rd.2
      let r := ltxGoF fuel st.1 st.2
      (r.1, r.2.1, l :: r.2.2)

/-- `LaTexParser(stream, verbose, fileName).parseStream()` over a raw stream:
`setInput` wraps the stream in a fresh normalizer chain, and the loop's fuel
exceeds the chain's measure. -/
def ltxParse (fn : Option Str) (lines : List Str) : LaTexState × Chain × List Str :=
  ltxGoF (8 * lines.length + 8) (ltxInit fn) (mkChain lines)

/-- How much one dispatched statement adds to `LaTexParser.numErrs`
(handlers `handleError` and `pdfLatexError`, and `handleOldStyleErrors` on
its error branch, increment it by one). -/
def ltxErrDelta (l : Str) : Nat :=
  match ltxTag l with
  | some .handleError => 1
  | some .pdfLatexError => 1
  | some .handleOldStyleErrors => if oldStyleIsError l then 1 else 0
  | _ => 0

/-- How much one dispatched statement adds to `LaTexParser.numWarns`
(handlers `handleWarning`, `warning`, `handleFileLineWarning`, and
`handleOldStyleErrors` on its warning branch). -/
def ltxWarnDelta (l : Str) : Nat :=
  match ltxTag l with
  | some .handleWarning => 1
  | some .warning => 1
  | some .handleFileLineWarning => 1
  | some .handleOldStyleErrors => if oldStyleIsError l then 0 else 1
  | _ => 0

/-! ### BibTexParser (texparser3.py lines 131-156)

`BibTexParser` uses the base `setInput`, so it reads the raw stream
directly, one physical line per statement. -/

/-- Handlers of `BibTexParser`. -/
inductive BibTag : Type
  | warning
  | handleFileLineReference
  | error
  | info
  | finishRun
deriving DecidableEq

def pBibWarning (l : Str) : Option BibTag :=
  if sWarningDashDash.isPrefixOf l then some .warning else none

/-- `--line (\d+) of file (.*)`. -/
def pBibFileLine (l : Str) : Option BibTag :=
  if sDashDashLine.isPrefixOf l then
    let t := l.drop sDashDashLine.length
    let d := t.takeWhile isDigitChar
    if !d.isEmpty && sSpOfFileSp.isPrefixOf (t.drop d.length) then
      some .handleFileLineReference
    else none
  else none

/-- `I found no \\\w+ command`. -/
def pBibFoundNo (l : Str) : Option BibTag :=
  if sIFoundNo.isPrefixOf l then
    let t := l.drop sIFoundNo.length
    let w := t.takeWhile isWordChar
    if !w.isEmpty && sSpCommand.isPrefixOf (t.drop w.length) then some .warning else none
  else none

def pBibOpenStyle (l : Str) : Option BibTag :=
  if sICouldntOpenStyle.isPrefixOf l then some .error else none

/-- `I couldn't open \w+ file`. -/
def pBibOpenFile (l : Str) : Option BibTag :=
  if sICouldntOpenSp.isPrefixOf l then
    let t := l.drop sICouldntOpenSp.length
    let w := t.takeWhile isWordChar
    if !w.isEmpty && sSpFile.isPrefixOf (t.drop w.length) then some .error else none
  else none

def pBibBanner (l : Str) : Option BibTag :=
  if sThisIsBibTeX.isPrefixOf l then some .info else none

def pBibTheStyle (l : Str) : Option BibTag :=
  if sTheStyle.isPrefixOf l then some .info else none

def pBibDatabase (l : Str) : Option BibTag :=
  if sDatabase.isPrefixOf l then some .info else none

def pBibDashes (l : Str) : Option BibTag :=
  if sDashes.isPrefixOf l then some .finishRun else none

/-- The pattern table of `BibTexParser.__init__`, in declaration order. -/
def bibMatchers : List (Str → Option BibTag) :=
  [pBibWarning, pBibFileLine, pBibFoundNo, pBibOpenStyle, pBibOpenFile,
   pBibBanner, pBibTheStyle, pBibDatabase, pBibDashes]

def bibTag (l : Str) : Option BibTag := firstMatch bibMatchers l

/-- The state of a `BibTexParser` instance (`numNobiblioErrs` is initialised
and never written again in this file). -/
structure BibState where
  done : Bool
  numErrs : Nat
  numWarns : Nat
  isFatal : Bool
  numRuns : Nat
  numNobiblioErrs : Nat
  badRunInvoked : Bool
deriving DecidableEq

def bibInit : BibState :=
  { done := false, numErrs := 0, numWarns := 0, isFatal := false, numRuns := 0,
    numNobiblioErrs := 0, badRunInvoked := false }

/-- `TexParser.parseLine` for a `BibTexParser` followed by the matched
handler's state update (`handleFileLineReference` counts as a warning). -/
def bibStep (s : BibState) (l : Str) : BibState :=
  match bibTag l with
  | some .warning => { s with numWarns := s.numWarns + 1 }
  | some .handleFileLineReference => { s with numWarns := s.numWarns + 1 }
  | some .error => { s with numErrs := s.numErrs + 1 }
  | some .info => s
  | some .finishRun => { s with done := true }
  | none => s

def bibWrapup (s : BibState) : BibState :=
  let s1 := if s.done = false then { s with badRunInvoked := true } else s
  if s1.numRuns = 0 then { s1 with numRuns := 1 } else s1

/-- `TexParser.parseStream` for a `BibTexParser`, reading the raw shared
stream: returns the final state, the lines still unread, and the trace of
dispatched statements. -/
def bibGo : BibState → List Str → BibState × List Str × List Str
  | s, [] => (bibWrapup s, [], [])
  | s, line :: rest =>
    if line.isEmpty || s.done then (bibWrapup s, rest, [])
    else
      let l := rstripNL line
      let r := bibGo (bibStep s l) rest
      (r.1, r.2.1, l :: r.2.2)

/-- `BibTexParser(stream, verbose).parseStream()`. -/
def bibParse (lines : List Str) : BibState × List Str × List Str := bibGo bibInit lines

def bibErrDelta (l : Str) : Nat :=
  match bibTag l with
  | some .error => 1
  | _ => 0

def bibWarnDelta (l : Str) : Nat :=
  match bibTag l with
  | some .warning => 1
  | some .handleFileLineReference => 1
  | _ => 0

/-! ### MkIndexParser (texparser3.py lines 113-128) -/

/-- `Input index file (.*) not found`, the single pattern of
`MkIndexParser`, whose handler `noInputError` counts an error. -/
def pIdxNoInput (l : Str) : Bool :=
  sInputIndexFile.isPrefixOf l && containsSub sSpNotFound (l.drop sInputIndexFile.length)

structure IdxState where
  done : Bool
  numErrs : Nat
  numWarns : Nat
  isFatal : Bool
  numRuns : Nat
  badRunInvoked : Bool
deriving DecidableEq

def idxInit : IdxState :=
  { done := false, numErrs := 0, numWarns := 0, isFatal := false, numRuns := 0,
    badRunInvoked := false }

def idxStep (s : IdxState) (l : Str) : IdxState :=
  if pIdxNoInput l then { s with numErrs := s.numErrs + 1 } else s

def idxWrapup (s : IdxState) : IdxState :=
  let s1 := if s.done = false then { s with badRunInvoked := true } else s
  if s1.numRuns = 0 then { s1 with numRuns := 1 } else s1

/-- `TexParser.parseStream` for a `MkIndexParser`. -/
def idxGo : IdxState → List Str → IdxState × List Str × List Str
  | s, [] => (idxWrapup s, [], [])
  | s, line :: rest =>
    if line.isEmpty || s.done then (idxWrapup s, rest, [])
    else
      let l := rstripNL line
      let r := idxGo (idxStep s l) rest
      (r.1, r.2.1, l :: r.2.2)

def idxParse (lines : List Str) : IdxState × List Str × List Str := idxGo idxInit lines

def idxErrDelta (l : Str) : Nat := if pIdxNoInput l then 1 else 0

def idxWarnDelta (_ : Str) : Nat := 0

/-! ### The base TexParser (texparser3.py lines 26-110)

`TexParser.__init__` installs an empty pattern table, so a bare base parser
dispatches every statement to no handler. -/

structure TexState where
  done : Bool
  numErrs : Nat
  numWarns : Nat
  isFatal : Bool
  numRuns : Nat
  badRunInvoked : Bool
deriving DecidableEq

def baseInit : TexState :=
  { done := false, numErrs := 0, numWarns := 0, isFatal := false, numRuns := 0,
    badRunInvoked := false }

/-- Dispatch over the empty pattern table of the base class. -/
def baseStep (s : TexState) (_ : Str) : TexState := s

def baseWrapup (s : TexState) : TexState :=
  let s1 := if s.done = false then { s with badRunInvoked := true } else s
  if s1.numRuns = 0 then { s1 with numRuns := 1 } else s1

def baseGo : TexState → List Str → TexState × List Str × List Str
  | s, [] => (baseWrapup s, [], [])
  | s, line :: rest =>
    if line.isEmpty || s.done then (baseWrapup s, rest, [])
    else
      let l := rstripNL line
      let r := baseGo (baseStep s l) rest
      (r.1, r.2.1, l :: r.2.2)

def baseParse (lines : List Str) : TexState × List Str × List Str := baseGo baseInit lines

def baseErrDelta (_ : Str) : Nat := 0

def baseWarnDelta (_ : Str) : Nat := 0

/-! ### ParseLatexMk, the orchestrator (texparser3.py lines 302-347) -/

/-- Handlers of `ParseLatexMk`. -/
inductive LmkTag : Type
  | startLatex
  | startBibtex
  | finishRun
  | ltxmk
  | newRun
deriving DecidableEq

/-- `This is (pdfTeXk|latex2e|latex|XeTeXk)`. -/
def pLmkThisIsTex (l : Str) : Option LmkTag :=
  if sThisIsSp.isPrefixOf l &&
      (sPdfTeXk.isPrefixOf (l.drop sThisIsSp.length)
        || sLatex2e.isPrefixOf (l.drop sThisIsSp.length)
        || sLatex.isPrefixOf (l.drop sThisIsSp.length)
        || sXeTeXk.isPrefixOf (l.drop sThisIsSp.length)) then
    some .startLatex
  else none

def pLmkThisIsBibTeX (l : Str) : Option LmkTag :=
  if sThisIsBibTeX.isPrefixOf l then some .startBibtex else none

/-- The lazy `\(.*?\)` of `^Latexmk: All targets \(.*?\) are up-to-date`:
after the literal prefix, a `)` followed by ` are up-to-date`. -/
def upToDateClose : Str → Bool
  | [] => false
  | c :: t => (c == ')' && sSpAreUpToDate.isPrefixOf t) || upToDateClose t

def pLmkUpToDate (l : Str) : Option LmkTag :=
  if sLatexmkTargets.isPrefixOf l && upToDateClose (l.drop sLatexmkTargets.length) then
    some .finishRun
  else none

def pLmkMakeindex (l : Str) : Option LmkTag :=
  if sThisIsMakeindex.isPrefixOf l then some .startBibtex else none

def pLmkLatexmk (l : Str) : Option LmkTag :=
  if sLatexmk.isPrefixOf l then some .ltxmk else none

def pLmkRunNumber (l : Str) : Option LmkTag :=
  if sRunNumber.isPrefixOf l then some .newRun else none

/-- The pattern table of `ParseLatexMk.__init__`, in declaration order. -/
def lmkMatchers : List (Str → Option LmkTag) :=
  [pLmkThisIsTex, pLmkThisIsBibTeX, pLmkUpToDate, pLmkMakeindex, pLmkLatexmk,
   pLmkRunNumber]

def lmkTag (l : Str) : Option LmkTag := firstMatch lmkMatchers l

structure LmkState where
  done : Bool
  numErrs : Nat
  numWarns : Nat
  isFatal : Bool
  numRuns : Nat
  badRunInvoked : Bool
  fileName : Option Str
deriving DecidableEq

def lmkInit (fn : Option Str) : LmkState :=
  { done := false, numErrs := 0, numWarns := 0, isFatal := false, numRuns := 0,
    badRunInvoked := false, fileName := fn }

/-- Dispatch of one statement by `ParseLatexMk`, threading the shared raw
stream: `startBibtex` and `startLatex` construct a fresh sub-parser bound to
the same stream cursor, drive its `parseStream` to completion, and fold only
the returned error and warning counts into the orchestrator's totals (the
returned fatal flag is discarded); a delegated `LaTexParser` reads through a
fresh normalizer chain whose pending buffers are dropped when it returns.
`newRun` resets both counters and counts a run; the up-to-date marker sets
the done flag. -/
def lmkStep (s : LmkState) (l : Str) (stream : List Str) : LmkState × List Str :=
  match lmkTag l with
  | some .startLatex =>
    let r := ltxParse s.fileName stream
    ({ s with numErrs := s.numErrs + r.1.numErrs, numWarns := s.numWarns + r.1.numWarns },
      r.2.1.raw)
  | some .startBibtex =>
    let r := bibParse stream
    ({ s with numErrs := s.numErrs + r.1.numErrs, numWarns := s.numWarns + r.1.numWarns },
      r.2.1)
  | some .finishRun => ({ s with done := true }, stream)
  | some .ltxmk => (s, stream)
  | some .newRun =>
    ({ s with numErrs := 0, numWarns := 0, numRuns := s.numRuns + 1 }, stream)
  | none => (s, stream)

def lmkWrapup (s : LmkState) : LmkState :=
  let s1 := if s.done = false then { s with badRunInvoked := true } else s
  if s1.numRuns = 0 then { s1 with numRuns := 1 } else s1

/-- `TexParser.parseStream` for a `ParseLatexMk` over the raw stream.  The
trace records each statement the orchestrator itself dispatched together
with its `numErrs` and `numWarns` immediately after that dispatch.  Fuel
bounds the iterations; each iteration consumes at least the line it read. -/
def lmkGoF : Nat → LmkState → List Str → LmkState × List Str × List (Str × Nat × Nat)
  | 0, s, stream => (s, stream, [])
  | fuel + 1, s, stream =>
    match stream with
    | [] => (lmkWrapup s, [], [])
    | line :: rest =>
      if line.isEmpty || s.done then (lmkWrapup s, rest, [])
      else
        let l := rstripNL line
        let st := lmkStep s l rest
        let r := lmkGoF fuel st.1 st.2
        (r.1, r.2.1, (l, st.1.numErrs, st.1.numWarns) :: r.2.2)

/-- `ParseLatexMk(stream, verbose, fileName).parseStream()`. -/
def lmkParse (fn : Option Str) (lines : List Str) :
    LmkState × List Str × List (Str × Nat × Nat) :=
  lmkGoF (lines.length + 1) (lmkInit fn) lines



/-! ### Auxiliary definitions for the statements of the properties -/

/-- Weight of one pending buffer. -/
def bufW (b : Str) : Nat := if b.isEmpty then 0 else 1

/-- A measure of the unread content of the normalizer chain: every read that
returns a nonempty statement strictly decreases it. -/
def mu3 (c : Chain) : Nat :=
  8 * c.raw.length + 4 * bufW c.lbBuf + 2 * bufW c.mwBuf + bufW c.pwBuf

/-- A well-formed physical line, as `readline` on a text stream produces
them: nonempty, and if it is one of the 80-character lines the rewrap stage
glues, it does not consist of newlines only (a real 80-character line has at
most one trailing newline). -/
def wfLineB (l : Str) : Bool :=
  !l.isEmpty && (!(l.length = 80 : Bool) || !(rstripNL l).isEmpty)

/-- A line that triggers none of the normalizer stages: not of length 80, not
split by the inline-warning stage, no `LaTeX Warning` introducer and no
`Package NAME Warning:` introducer. -/
def chainNeutral (l : Str) : Bool :=
  !l.isEmpty && !(l.length = 80 : Bool) && (lbSplit l).isNone &&
    !(sLaTeXWarning.isPrefixOf l) && (pkgWarnIntro l).isNone

/-- Modelled from the spec's words for comparison with the code: the line
contains the substring `error` under case-insensitive comparison. -/
def specContainsErrorCI (l : Str) : Bool :=
  containsSub sErrLow (l.map Char.toLower)

/-! ### Concrete input lines used in the concrete runs -/

def lnBibBanner : Str := "This is BibTeX, Version 0.99d\n".data

def lnBibWarn : Str := "Warning--empty journal in meyer\n".data

def lnUpToDate : Str := "Latexmk: All targets (test.pdf) are up-to-date\n".data

def lnWarnPkgA : Str := "LaTeX Warning: You have requested package \x60a\x27,\n".data

def lnWarnPkgCont : Str := "               but the package provides \x60b\x27.\n".data

def lnNextLine : Str := "Next line\n".data

def lnMergedWarn : Str :=
  "LaTeX Warning: You have requested package \x60a\x27, but the package provides \x60b\x27.".data

def lnMWx : Str := "LaTeX Warning: x,\n".data

def lnMWy : Str := "   y\n".data

def lnHello : Str := "hello\n".data

def lnWorld : Str := "world\n".data

def lnThisIsLatex2e : Str := "This is latex2e\n".data

def lnFatalArrow : Str := " ==> x\n".data

def lnTail : Str := "tail\n".data

def lnBibErr : Str := "I couldn\x27t open style file foo.bst\n".data

def lnPad : Str := "pad\n".data

def lnDashes : Str := "---\n".data

def lnRunNumber : Str := "Run number 1\n".data

def lnLatexBanner : Str := "This is pdfTeX, Version 3.14159\n".data

def lnTranscript : Str := "Transcript written on test.log.\n".data

def stmtOldERROR : Str := "! BAD ERROR".data

def stmtOldError : Str := "! Some error here".data

def fnTestTex : Str := "test.tex".data

def stmtNextLine : Str := "Next line".data

def stmtCloseParen : Str := ")".data

def lnPdfError : Str := "Error: pdflatex failed\n".data

/-! ## Helper lemmas -/

theorem bibWrapup_frame (s : BibState) :
    (bibWrapup s).numErrs = s.numErrs ∧ (bibWrapup s).numWarns = s.numWarns ∧
    (bibWrapup s).done = s.done := by
  unfold bibWrapup
  split <;> dsimp only <;> split <;> simp_all

theorem bibStep_counts (s : BibState) (l : Str) :
    (bibStep s l).numErrs = s.numErrs + bibErrDelta l ∧
    (bibStep s l).numWarns = s.numWarns + bibWarnDelta l := by
  unfold bibStep bibErrDelta bibWarnDelta
  cases h : bibTag l with
  | none => simp
  | some t => cases t <;> simp

theorem bibGo_counts (stream : List Str) : ∀ s : BibState,
    (bibGo s stream).1.numErrs = s.numErrs + ((bibGo s stream).2.2.map bibErrDelta).sum ∧
    (bibGo s stream).1.numWarns = s.numWarns + ((bibGo s stream).2.2.map bibWarnDelta).sum := by
  induction stream with
  | nil =>
    intro s
    simpa [bibGo] using ⟨(bibWrapup_frame s).1, (bibWrapup_frame s).2.1⟩
  | cons line rest ih =>
    intro s
    by_cases h : (line.isEmpty || s.done) = true
    · simpa [bibGo, h] using ⟨(bibWrapup_frame s).1, (bibWrapup_frame s).2.1⟩
    · have h2 := ih (bibStep s (rstripNL line))
      have h3 := bibStep_counts s (rstripNL line)
      simp only [bibGo, h, Bool.false_eq_true, if_false, List.map_cons, List.sum_cons]
      omega

theorem idxWrapup_frame (s : IdxState) :
    (idxWrapup s).numErrs = s.numErrs ∧ (idxWrapup s).numWarns = s.numWarns ∧
    (idxWrapup s).done = s.done := by
  unfold idxWrapup
  split <;> dsimp only <;> split <;> simp_all

theorem idxStep_counts (s : IdxState) (l : Str) :
    (idxStep s l).numErrs = s.numErrs + idxErrDelta l ∧
    (idxStep s l).numWarns = s.numWarns + idxWarnDelta l := by
  unfold idxStep idxErrDelta idxWarnDelta
  split <;> simp

theorem idxGo_counts (stream : List Str) : ∀ s : IdxState,
    (idxGo s stream).1.numErrs = s.numErrs + ((idxGo s stream).2.2.map idxErrDelta).sum ∧
    (idxGo s stream).1.numWarns = s.numWarns + ((idxGo s stream).2.2.map idxWarnDelta).sum := by
  induction stream with
  | nil =>
    intro s
    simpa [idxGo] using ⟨(idxWrapup_frame s).1, (idxWrapup_frame s).2.1⟩
  | cons line rest ih =>
    intro s
    by_cases h : (line.isEmpty || s.done) = true
    · simpa [idxGo, h] using ⟨(idxWrapup_frame s).1, (idxWrapup_frame s).2.1⟩
    · have h2 := ih (idxStep s (rstripNL line))
      have h3 := idxStep_counts s (rstripNL line)
      simp only [idxGo, h, Bool.false_eq_true, if_false, List.map_cons, List.sum_cons]
      omega

theorem baseWrapup_frame (s : TexState) :
    (baseWrapup s).numErrs = s.numErrs ∧ (baseWrapup s).numWarns = s.numWarns ∧
    (baseWrapup s).done = s.done := by
  unfold baseWrapup
  split <;> dsimp only <;> split <;> simp_all

theorem baseGo_counts (stream : List Str) : ∀ s : TexState,
    (baseGo s stream).1.numErrs = s.numErrs + ((baseGo s stream).2.2.map baseErrDelta).sum ∧
    (baseGo s stream).1.numWarns = s.numWarns + ((baseGo s stream).2.2.map baseWarnDelta).sum := by
  induction stream with
  | nil =>
    intro s
    simpa [baseGo] using ⟨(baseWrapup_frame s).1, (baseWrapup_frame s).2.1⟩
  | cons line rest ih =>
    intro s
    by_cases h : (line.isEmpty || s.done) = true
    · simpa [baseGo, h] using ⟨(baseWrapup_frame s).1, (baseWrapup_frame s).2.1⟩
    · have h2 := ih (baseStep s (rstripNL line))
      simp only [baseGo, h, Bool.false_eq_true, if_false, List.map_cons, List.sum_cons,
        baseErrDelta, baseWarnDelta, baseStep] at h2 ⊢
      omega

theorem procMark_frame (s : LaTexState) (m : Char × Str) :
    (procMark s m).numErrs = s.numErrs ∧ (procMark s m).numWarns = s.numWarns ∧
    (procMark s m).done = s.done ∧ (procMark s m).isFatal = s.isFatal ∧
    (procMark s m).badRunInvoked = s.badRunInvoked ∧ (procMark s m).numRuns = s.numRuns := by
  unfold procMark
  dsimp only
  split_ifs <;> simp

theorem foldl_procMark_frame (ms : List (Char × Str)) : ∀ s : LaTexState,
    (ms.foldl procMark s).numErrs = s.numErrs ∧ (ms.foldl procMark s).numWarns = s.numWarns ∧
    (ms.foldl procMark s).done = s.done ∧ (ms.foldl procMark s).isFatal = s.isFatal ∧
    (ms.foldl procMark s).badRunInvoked = s.badRunInvoked ∧
    (ms.foldl procMark s).numRuns = s.numRuns := by
  induction ms with
  | nil => intro s; simp
  | cons m rest ih =>
    intro s
    have h1 := procMark_frame s m
    have h2 := ih (procMark s m)
    simp only [List.foldl_cons]
    exact ⟨h2.1.trans h1.1, (h2.2.1).trans h1.2.1, (h2.2.2.1).trans h1.2.2.1,
      (h2.2.2.2.1).trans h1.2.2.2.1, (h2.2.2.2.2.1).trans h1.2.2.2.2.1,
      (h2.2.2.2.2.2).trans h1.2.2.2.2.2⟩

theorem procMarks_frame (s : LaTexState) (l : Str) :
    (procMarks s l).numErrs = s.numErrs ∧ (procMarks s l).numWarns = s.numWarns ∧
    (procMarks s l).done = s.done ∧ (procMarks s l).isFatal = s.isFatal ∧
    (procMarks s l).badRunInvoked = s.badRunInvoked ∧
    (procMarks s l).numRuns = s.numRuns :=
  foldl_procMark_frame (findMarks l) s

theorem ltxStep_counts (s : LaTexState) (l : Str) (c : Chain) :
    (ltxStep s l c).1.numErrs = s.numErrs + ltxErrDelta l ∧
    (ltxStep s l c).1.numWarns = s.numWarns + ltxWarnDelta l := by
  have hm := procMarks_frame s l
  unfold ltxStep ltxErrDelta ltxWarnDelta
  cases h : ltxTag l with
  | none => simp [hm.1, hm.2.1]
  | some t =>
    cases t <;> dsimp only <;> try split
    all_goals simp [hm.1, hm.2.1]

theorem ltxWrapup_props (s : LaTexState) :
    (ltxWrapup s).numErrs = s.numErrs ∧ (ltxWrapup s).numWarns = s.numWarns ∧
    (ltxWrapup s).done = s.done ∧
    (ltxWrapup s).badRunInvoked = (s.badRunInvoked || !s.done) := by
  unfold ltxWrapup
  split <;> dsimp only <;> split <;> simp_all

theorem ltxGoF_counts (fuel : Nat) : ∀ (s : LaTexState) (c : Chain),
    (ltxGoF fuel s c).1.numErrs = s.numErrs + ((ltxGoF fuel s c).2.2.map ltxErrDelta).sum ∧
    (ltxGoF fuel s c).1.numWarns = s.numWarns + ((ltxGoF fuel s c).2.2.map ltxWarnDelta).sum := by
  induction fuel with
  | zero => intro s c; simp [ltxGoF]
  | succ n ih =>
    intro s c
    by_cases h : ((chainRead c).1.isEmpty || s.done) = true
    · simpa [ltxGoF, h] using ⟨(ltxWrapup_props s).1, (ltxWrapup_props s).2.1⟩
    · have h2 := ih (ltxStep s (rstripNL (chainRead c).1) (chainRead c).2).1
        (ltxStep s (rstripNL (chainRead c).1) (chainRead c).2).2
      have h3 := ltxStep_counts s (rstripNL (chainRead c).1) (chainRead c).2
      simp only [ltxGoF, h, Bool.false_eq_true, if_false, List.map_cons, List.sum_cons]
      omega

theorem bibGo_done_skip (stream : List Str) : ∀ s : BibState,
    (bibGo s stream).1.done = true →
    (bibGo s stream).2.2.length < stream.length →
    (bibGo s stream).2.1 = stream.drop ((bibGo s stream).2.2.length + 1) ∧
    (bibGo s stream).2.2 = (stream.take (bibGo s stream).2.2.length).map rstripNL := by
  induction stream with
  | nil => intro s _ hlen; simp [bibGo] at hlen
  | cons line rest ih =>
    intro s hdone hlen
    by_cases h : (line.isEmpty || s.done) = true
    · simp [bibGo, h]
    · have hih := ih (bibStep s (rstripNL line))
      simp only [bibGo, h, Bool.false_eq_true, if_false] at hdone hlen ⊢
      simp only [List.length_cons, List.drop_succ_cons, List.take_succ_cons,
        List.map_cons] at hlen ⊢
      have hlen2 : (bibGo (bibStep s (rstripNL line)) rest).2.2.length < rest.length := by
        omega
      have := hih hdone hlen2
      exact ⟨this.1, congrArg (List.cons (rstripNL line)) this.2⟩

theorem bibGo_partition (stream : List Str) : ∀ s : BibState,
    ∃ lost : List Str, lost.length ≤ 1 ∧
      stream = stream.take (bibGo s stream).2.2.length ++ lost ++ (bibGo s stream).2.1 ∧
      (bibGo s stream).2.2 = (stream.take (bibGo s stream).2.2.length).map rstripNL ∧
      (lost = [] ∨ ∃ x, lost = [x] ∧ ((bibGo s stream).1.done = true ∨ x.isEmpty = true)) := by
  induction stream with
  | nil =>
    intro s
    exact ⟨[], by simp [bibGo], by simp [bibGo], by simp [bibGo], Or.inl rfl⟩
  | cons line rest ih =>
    intro s
    by_cases h : (line.isEmpty || s.done) = true
    · refine ⟨[line], by simp, by simp [bibGo, h], by simp [bibGo, h], Or.inr ⟨line, rfl, ?_⟩⟩
      rcases Bool.or_eq_true_iff.mp h with h1 | h1
      · exact Or.inr h1
      · exact Or.inl (by simp [bibGo, h, (bibWrapup_frame s).2.2, h1])
    · obtain ⟨lost, hle, hpart, htr, hd⟩ := ih (bibStep s (rstripNL line))
      refine ⟨lost, hle, ?_, ?_, ?_⟩
      · simp only [bibGo, h, Bool.false_eq_true, if_false, List.length_cons,
          List.take_succ_cons, List.cons_append]
        exact congrArg (List.cons line) hpart
      · simp only [bibGo, h, Bool.false_eq_true, if_false, List.length_cons,
          List.take_succ_cons, List.map_cons]
        exact congrArg (List.cons (rstripNL line)) htr
      · rcases hd with hd | ⟨x, hx, hdx⟩
        · exact Or.inl hd
        · exact Or.inr ⟨x, hx, by simpa [bibGo, h] using hdx⟩

theorem bufW_le (b : Str) : bufW b ≤ 1 := by
  unfold bufW; split <;> simp

theorem bufW_nil : bufW [] = 0 := rfl

theorem bufW_pos (b : Str) (h : b ≠ []) : bufW b = 1 := by
  unfold bufW
  split
  · simp_all
  · rfl

theorem nl80_raw_le (raw : List Str) : ∀ acc, (nl80ReadAux raw acc).2.length ≤ raw.length := by
  induction raw with
  | nil => intro acc; simp [nl80ReadAux]
  | cons line rest ih =>
    intro acc
    unfold nl80ReadAux
    split
    · simp
    · split
      · have := ih (acc ++ rstripNL line)
        simp only [List.length_cons]
        omega
      · simp

theorem nl80_raw_lt (raw : List Str) : ∀ acc, raw ≠ [] →
    (nl80ReadAux raw acc).2.length < raw.length := by
  cases raw with
  | nil => intro acc h; exact absurd rfl h
  | cons line rest =>
    intro acc _
    unfold nl80ReadAux
    split
    · simp
    · split
      · have := nl80_raw_le rest (acc ++ rstripNL line)
        simp only [List.length_cons]
        omega
      · simp

theorem nl80_mem (raw : List Str) : ∀ acc l, l ∈ (nl80ReadAux raw acc).2 → l ∈ raw := by
  induction raw with
  | nil => intro acc l h; simp [nl80ReadAux] at h
  | cons line rest ih =>
    intro acc l h
    unfold nl80ReadAux at h
    split at h
    · exact List.mem_cons_of_mem _ h
    · split at h
      · exact List.mem_cons_of_mem _ (ih (acc ++ rstripNL line) l h)
      · exact List.mem_cons_of_mem _ h

theorem nl80_ne (raw : List Str) : ∀ acc, (∀ l ∈ raw, wfLineB l = true) →
    (acc ≠ [] ∨ raw ≠ []) → (nl80ReadAux raw acc).1 ≠ [] := by
  induction raw with
  | nil =>
    intro acc _ hor
    rcases hor with h | h
    · simpa [nl80ReadAux] using h
    · exact absurd rfl h
  | cons line rest ih =>
    intro acc hwf _
    have hline := hwf line (List.mem_cons_self line rest)
    unfold wfLineB at hline
    unfold nl80ReadAux
    split
    · simp_all
    · split
      · refine ih (acc ++ rstripNL line) (fun l hl => hwf l (List.mem_cons_of_mem _ hl))
          (Or.inl ?_)
        have : ¬(rstripNL line).isEmpty = true := by
          rename_i h80
          have h2 : ¬line = [] ∧ ¬rstripNL line = [] := by simpa [h80] using hline
          simpa using h2.2
        simp_all [List.append_eq_nil]
      · have : ¬line.isEmpty = true := by simpa using And.left (by simpa using hline)
        simp_all [List.append_eq_nil]

theorem lbRead_spec (c : Chain) :
    mu3 (lbRead c).2 ≤ mu3 c ∧
    ((lbRead c).1 ≠ [] → mu3 (lbRead c).2 + 4 ≤ mu3 c) ∧
    (lbRead c).2.mwBuf = c.mwBuf ∧ (lbRead c).2.pwBuf = c.pwBuf ∧
    (∀ l ∈ (lbRead c).2.raw, l ∈ c.raw) := by
  unfold lbRead
  dsimp only
  by_cases hb : c.lbBuf.isEmpty = true
  · have hbuf : c.lbBuf = [] := by simpa using hb
    simp only [hb, Bool.not_true, Bool.false_eq_true, if_false]
    by_cases he : (nl80ReadAux c.raw []).1.isEmpty = true
    · have h1 := nl80_raw_le c.raw []
      simp only [he, if_true]
      refine ⟨?_, fun hc => absurd rfl hc, by trivial, by trivial, fun l hl => nl80_mem c.raw [] l hl⟩
      simp only [mu3]
      omega
    · have hraw : c.raw ≠ [] := by
        intro h0
        rw [h0] at he
        simp [nl80ReadAux] at he
      have h1 := nl80_raw_lt c.raw [] hraw
      simp only [he, Bool.false_eq_true, if_false]
      cases hsp : lbSplit (nl80ReadAux c.raw []).1 with
      | some g =>
        refine ⟨?_, fun _ => ?_, rfl, rfl, fun l hl => nl80_mem c.raw [] l hl⟩ <;>
          · simp only [mu3, hbuf, bufW_nil]
            have h2 := bufW_le g.2
            omega
      | none =>
        refine ⟨?_, fun _ => ?_, rfl, rfl, fun l hl => nl80_mem c.raw [] l hl⟩ <;>
          · simp only [mu3, hbuf, bufW_nil]
            omega
  · have hbuf : c.lbBuf ≠ [] := by simpa using hb
    simp only [hb, Bool.not_false, if_true]
    refine ⟨?_, fun _ => ?_, by trivial, by trivial, fun l hl => hl⟩ <;>
      · simp only [mu3, bufW_nil, bufW_pos c.lbBuf hbuf]
        omega

theorem lbSplit_ne (l : Str) (g : Str × Str) (h : lbSplit l = some g) : g.1 ≠ [] := by
  unfold lbSplit at h
  cases hf : ((List.range l.length).reverse.map (fun q => q + 1)).find? (lbValid l) with
  | none => rw [hf] at h; simp at h
  | some p =>
    rw [hf] at h
    simp only [Option.some.injEq] at h
    have hm : p ∈ (List.range l.length).reverse.map (fun q => q + 1) :=
      List.mem_of_find?_eq_some hf
    simp only [List.mem_map, List.mem_reverse, List.mem_range] at hm
    obtain ⟨q, hq, hpq⟩ := hm
    intro hcontra
    have hg1 : g.1 = l.take p := by rw [← h]
    rw [hg1] at hcontra
    have hlen := congrArg List.length hcontra
    simp only [List.length_take, List.length_nil] at hlen
    omega

theorem lbRead_empty (c : Chain) (hwf : ∀ l ∈ c.raw, wfLineB l = true)
    (h : (lbRead c).1 = []) :
    c.lbBuf = [] ∧ c.raw = [] ∧ (lbRead c).2 = c := by
  obtain ⟨raw, lb, mw, pw⟩ := c
  simp only at hwf ⊢
  unfold lbRead at h ⊢
  dsimp only at h ⊢
  by_cases hb : lb.isEmpty = true
  · have hbuf : lb = [] := by simpa using hb
    subst hbuf
    simp only [List.isEmpty_nil, Bool.not_true, Bool.false_eq_true, if_false] at h ⊢
    by_cases he : (nl80ReadAux raw []).1.isEmpty = true
    · have hraw : raw = [] := by
        by_contra hcon
        exact nl80_ne raw [] hwf (Or.inr hcon) (by simpa using he)
      subst hraw
      simp [nl80ReadAux]
    · simp only [he, Bool.false_eq_true, if_false] at h
      cases hsp : lbSplit (nl80ReadAux raw []).1 with
      | some g =>
        rw [hsp] at h
        exact absurd h (lbSplit_ne _ g hsp)
      | none =>
        rw [hsp] at h
        simp only at h
        exact absurd h (by simpa using he)
  · have hbuf : lb ≠ [] := by simpa using hb
    simp only [hb, Bool.not_false, if_true] at h
    exact absurd h hbuf

theorem mwGet_spec (c : Chain) :
    mu3 (mwGet c).2 ≤ mu3 c ∧
    ((mwGet c).1 ≠ [] → mu3 (mwGet c).2 + 2 ≤ mu3 c) ∧
    (mwGet c).2.pwBuf = c.pwBuf ∧
    (mwGet c).2.mwBuf = [] ∧
    (∀ l ∈ (mwGet c).2.raw, l ∈ c.raw) := by
  unfold mwGet
  by_cases hb : c.mwBuf.isEmpty = true
  · have hbuf : c.mwBuf = [] := by simpa using hb
    simp only [hb, Bool.not_true, Bool.false_eq_true, if_false]
    have h := lbRead_spec c
    refine ⟨h.1, fun hne => ?_, h.2.2.2.1, by rw [h.2.2.1, hbuf], h.2.2.2.2⟩
    have := h.2.1 hne
    omega
  · have hbuf : c.mwBuf ≠ [] := by simpa using hb
    simp only [hb, Bool.not_false, if_true]
    refine ⟨?_, fun _ => ?_, by trivial, by trivial, fun l hl => hl⟩ <;>
      · simp only [mu3, bufW_nil, bufW_pos c.mwBuf hbuf]
        omega

theorem mwGet_empty (c : Chain) (hwf : ∀ l ∈ c.raw, wfLineB l = true)
    (h : (mwGet c).1 = []) :
    c.mwBuf = [] ∧ c.lbBuf = [] ∧ c.raw = [] ∧ (mwGet c).2 = c := by
  unfold mwGet at h ⊢
  by_cases hb : c.mwBuf.isEmpty = true
  · have hbuf : c.mwBuf = [] := by simpa using hb
    simp only [hb, Bool.not_true, Bool.false_eq_true, if_false] at h ⊢
    have := lbRead_empty c hwf h
    exact ⟨hbuf, this.1, this.2.1, this.2.2⟩
  · have hbuf : c.mwBuf ≠ [] := by simpa using hb
    simp only [hb, Bool.not_false, if_true] at h
    exact absurd h hbuf

theorem mwLoop_spec (fuel : Nat) : ∀ (st : Str) (c : Chain),
    mu3 (mwLoop fuel st c).2 ≤ mu3 c ∧
    (st ≠ [] → (mwLoop fuel st c).1 ≠ []) ∧
    (mwLoop fuel st c).2.pwBuf = c.pwBuf ∧
    (∀ l ∈ (mwLoop fuel st c).2.raw, l ∈ c.raw) := by
  induction fuel with
  | zero =>
    intro st c
    exact ⟨le_refl _, fun h => h, rfl, fun l hl => hl⟩
  | succ n ih =>
    intro st c
    have hg := mwGet_spec c
    rcases hr : mwGet c with ⟨line, c2⟩
    rw [hr] at hg
    dsimp only at hg
    unfold mwLoop
    rw [hr]
    dsimp only
    by_cases hpre : sTwoSpaces.isPrefixOf line = true
    · have hne : line ≠ [] := by
        intro h0
        rw [h0] at hpre
        exact absurd hpre (by decide)
      have hih := ih (rstripNL st ++ ' ' :: lstripWS line) c2
      simp only [hpre, if_true]
      refine ⟨?_, fun _ => ?_, ?_, ?_⟩
      · have := hg.2.1 hne
        omega
      · refine hih.2.1 ?_
        simp
      · exact hih.2.2.1.trans hg.2.2.1
      · exact fun l hl => hg.2.2.2.2 l (hih.2.2.2 l hl)
    · simp only [hpre, Bool.false_eq_true, if_false]
      obtain ⟨raw2, lb2, mw2, pw2⟩ := c2
      have hmw : mw2 = [] := hg.2.2.2.1
      subst hmw
      by_cases hl0 : line = []
      · subst hl0
        refine ⟨?_, fun hst => hst, hg.2.2.1, hg.2.2.2.2⟩
        simp only [mu3, bufW_nil] at hg ⊢
        omega
      · refine ⟨?_, fun hst => hst, hg.2.2.1, hg.2.2.2.2⟩
        have := hg.2.1 hl0
        have hbl := bufW_le line
        simp only [mu3, bufW_nil] at this ⊢
        omega

theorem mwRead_spec (c : Chain) :
    mu3 (mwRead c).2 ≤ mu3 c ∧
    ((mwRead c).1 ≠ [] → mu3 (mwRead c).2 + 2 ≤ mu3 c) ∧
    (mwRead c).2.pwBuf = c.pwBuf ∧
    (∀ l ∈ (mwRead c).2.raw, l ∈ c.raw) := by
  unfold mwRead
  have hg := mwGet_spec c
  rcases hr : mwGet c with ⟨line, c2⟩
  rw [hr] at hg
  dsimp only at hg
  dsimp only
  by_cases he : line.isEmpty = true
  · simp only [he, if_true]
    exact ⟨hg.1, fun hne => absurd (by simpa using he) hne, hg.2.2.1, hg.2.2.2.2⟩
  · have hne : line ≠ [] := by simpa using he
    have hstrict := hg.2.1 hne
    simp only [he, Bool.false_eq_true, if_false]
    by_cases hw : sLaTeXWarning.isPrefixOf line = true
    · simp only [hw, if_true]
      have hlp := mwLoop_spec (2 * c2.raw.length + 2) line c2
      refine ⟨?_, fun _ => ?_, hlp.2.2.1.trans hg.2.2.1,
        fun l hl => hg.2.2.2.2 l (hlp.2.2.2 l hl)⟩ <;> omega
    · simp only [hw, Bool.false_eq_true, if_false]
      exact ⟨hg.1, fun _ => hstrict, hg.2.2.1, hg.2.2.2.2⟩

theorem mwRead_empty (c : Chain) (hwf : ∀ l ∈ c.raw, wfLineB l = true)
    (h : (mwRead c).1 = []) :
    c.mwBuf = [] ∧ c.lbBuf = [] ∧ c.raw = [] ∧ (mwRead c).2 = c := by
  unfold mwRead at h ⊢
  rcases hr : mwGet c with ⟨line, c2⟩
  rw [hr] at h
  dsimp only at h ⊢
  by_cases he : line.isEmpty = true
  · simp only [he, if_true] at h ⊢
    have hge := mwGet_empty c hwf (by rw [hr]; simpa using he)
    have h4 : c2 = c := by
      have := hge.2.2.2
      rw [hr] at this
      exact this
    exact ⟨hge.1, hge.2.1, hge.2.2.1, h4⟩
  · have hne : line ≠ [] := by simpa using he
    simp only [he, Bool.false_eq_true, if_false] at h
    by_cases hw : sLaTeXWarning.isPrefixOf line = true
    · simp only [hw, if_true] at h
      exact absurd h ((mwLoop_spec _ line c2).2.1 hne)
    · simp only [hw, Bool.false_eq_true, if_false] at h
      exact absurd h hne

theorem pwGet_spec (c : Chain) :
    mu3 (pwGet c).2 ≤ mu3 c ∧
    ((pwGet c).1 ≠ [] → mu3 (pwGet c).2 + 1 ≤ mu3 c) ∧
    (pwGet c).2.pwBuf = [] ∧
    (∀ l ∈ (pwGet c).2.raw, l ∈ c.raw) := by
  unfold pwGet
  by_cases hb : c.pwBuf.isEmpty = true
  · have hbuf : c.pwBuf = [] := by simpa using hb
    simp only [hb, Bool.not_true, Bool.false_eq_true, if_false]
    have h := mwRead_spec c
    refine ⟨h.1, fun hne => ?_, by rw [h.2.2.1, hbuf], h.2.2.2⟩
    have := h.2.1 hne
    omega
  · have hbuf : c.pwBuf ≠ [] := by simpa using hb
    simp only [hb, Bool.not_false, if_true]
    refine ⟨?_, fun _ => ?_, by trivial, fun l hl => hl⟩ <;>
      · simp only [mu3, bufW_nil, bufW_pos c.pwBuf hbuf]
        omega

theorem pwGet_empty (c : Chain) (hwf : ∀ l ∈ c.raw, wfLineB l = true)
    (h : (pwGet c).1 = []) :
    c.pwBuf = [] ∧ c.mwBuf = [] ∧ c.lbBuf = [] ∧ c.raw = [] ∧ (pwGet c).2 = c := by
  unfold pwGet at h ⊢
  by_cases hb : c.pwBuf.isEmpty = true
  · have hbuf : c.pwBuf = [] := by simpa using hb
    simp only [hb, Bool.not_true, Bool.false_eq_true, if_false] at h ⊢
    have := mwRead_empty c hwf h
    exact ⟨hbuf, this.1, this.2.1, this.2.2.1, this.2.2.2⟩
  · have hbuf : c.pwBuf ≠ [] := by simpa using hb
    simp only [hb, Bool.not_false, if_true] at h
    exact absurd h hbuf

theorem pwLoop_spec (fuel : Nat) : ∀ (cs st : Str) (c : Chain),
    mu3 (pwLoop fuel cs st c).2 ≤ mu3 c ∧
    (st ≠ [] → (pwLoop fuel cs st c).1 ≠ []) ∧
    (∀ l ∈ (pwLoop fuel cs st c).2.raw, l ∈ c.raw) := by
  induction fuel with
  | zero =>
    intro cs st c
    exact ⟨le_refl _, fun h => h, fun l hl => hl⟩
  | succ n ih =>
    intro cs st c
    have hg := pwGet_spec c
    rcases hr : pwGet c with ⟨line, c2⟩
    rw [hr] at hg
    dsimp only at hg
    unfold pwLoop
    rw [hr]
    dsimp only
    by_cases hpre : cs.isPrefixOf line = true
    · have hih := ih cs (rstripNL st ++ ' ' :: lstripWS (line.drop cs.length)) c2
      simp only [hpre, if_true]
      refine ⟨?_, fun _ => ?_, fun l hl => hg.2.2.2 l (hih.2.2 l hl)⟩
      · exact hih.1.trans hg.1
      · refine hih.2.1 ?_
        simp
    · simp only [hpre, Bool.false_eq_true, if_false]
      obtain ⟨raw2, lb2, mw2, pw2⟩ := c2
      have hpw : pw2 = [] := hg.2.2.1
      subst hpw
      by_cases hl0 : line = []
      · subst hl0
        refine ⟨?_, fun hst => hst, hg.2.2.2⟩
        simp only [mu3, bufW_nil] at hg ⊢
        omega
      · refine ⟨?_, fun hst => hst, hg.2.2.2⟩
        have := hg.2.1 hl0
        have hbl := bufW_le line
        simp only [mu3, bufW_nil] at this ⊢
        omega

theorem pwRead_spec (c : Chain) :
    mu3 (pwRead c).2 ≤ mu3 c ∧
    ((pwRead c).1 ≠ [] → mu3 (pwRead c).2 + 1 ≤ mu3 c) ∧
    (∀ l ∈ (pwRead c).2.raw, l ∈ c.raw) := by
  unfold pwRead
  have hg := pwGet_spec c
  rcases hr : pwGet c with ⟨line, c2⟩
  rw [hr] at hg
  dsimp only at hg
  dsimp only
  by_cases he : line.isEmpty = true
  · simp only [he, if_true]
    exact ⟨hg.1, fun hne => absurd (by simpa using he) hne, hg.2.2.2⟩
  · have hne : line ≠ [] := by simpa using he
    have hstrict := hg.2.1 hne
    simp only [he, Bool.false_eq_true, if_false]
    cases hsp : pkgWarnIntro line with
    | some name =>
      dsimp only
      have hlp := pwLoop_spec (4 * c2.raw.length + 4) ('(' :: (name ++ [')'])) line c2
      refine ⟨?_, fun _ => ?_, fun l hl => hg.2.2.2 l (hlp.2.2 l hl)⟩ <;> omega
    | none =>
      dsimp only
      exact ⟨hg.1, fun _ => hstrict, hg.2.2.2⟩

theorem pwRead_empty (c : Chain) (hwf : ∀ l ∈ c.raw, wfLineB l = true)
    (h : (pwRead c).1 = []) :
    c.pwBuf = [] ∧ c.mwBuf = [] ∧ c.lbBuf = [] ∧ c.raw = [] ∧ (pwRead c).2 = c := by
  unfold pwRead at h ⊢
  rcases hr : pwGet c with ⟨line, c2⟩
  rw [hr] at h
  dsimp only at h ⊢
  by_cases he : line.isEmpty = true
  · simp only [he, if_true] at h ⊢
    have hge := pwGet_empty c hwf (by rw [hr]; simpa using he)
    have h4 : c2 = c := by
      have := hge.2.2.2.2
      rw [hr] at this
      exact this
    exact ⟨hge.1, hge.2.1, hge.2.2.1, hge.2.2.2.1, h4⟩
  · have hne : line ≠ [] := by simpa using he
    simp only [he, Bool.false_eq_true, if_false] at h
    cases hsp : pkgWarnIntro line with
    | some name =>
      rw [hsp] at h
      exact absurd h ((pwLoop_spec _ _ line c2).2.1 hne)
    | none =>
      rw [hsp] at h
      exact absurd h hne

theorem chainRead_spec (c : Chain) :
    mu3 (chainRead c).2 ≤ mu3 c ∧
    ((chainRead c).1 ≠ [] → mu3 (chainRead c).2 + 1 ≤ mu3 c) ∧
    (∀ l ∈ (chainRead c).2.raw, l ∈ c.raw) := pwRead_spec c

theorem chainRead_empty (c : Chain) (hwf : ∀ l ∈ c.raw, wfLineB l = true)
    (h : (chainRead c).1 = []) :
    c.pwBuf = [] ∧ c.mwBuf = [] ∧ c.lbBuf = [] ∧ c.raw = [] ∧ (chainRead c).2 = c :=
  pwRead_empty c hwf h

theorem ltxStep_chain (s : LaTexState) (l : Str) (c : Chain) :
    mu3 (ltxStep s l c).2 ≤ mu3 c ∧
    (∀ x ∈ (ltxStep s l c).2.raw, x ∈ c.raw) ∧
    (ltxStep s l c).1.badRunInvoked = s.badRunInvoked := by
  have hm := procMarks_frame s l
  unfold ltxStep
  cases h : ltxTag l with
  | none => exact ⟨le_refl _, fun x hx => hx, hm.2.2.2.2.1⟩
  | some t =>
    cases t <;> dsimp only
    case outputInfo g1 => exact ⟨le_refl _, fun x hx => hx, hm.2.2.2.2.1⟩
    case info => exact ⟨le_refl _, fun x hx => hx, hm.2.2.2.2.1⟩
    case detectInclude => exact ⟨le_refl _, fun x hx => hx, hm.2.2.2.2.1⟩
    case handleWarning => exact ⟨le_refl _, fun x hx => hx, hm.2.2.2.2.1⟩
    case warning => exact ⟨le_refl _, fun x hx => hx, hm.2.2.2.2.1⟩
    case handleFileLineWarning => exact ⟨le_refl _, fun x hx => hx, hm.2.2.2.2.1⟩
    case warn2 => exact ⟨le_refl _, fun x hx => hx, hm.2.2.2.2.1⟩
    case handleError => exact ⟨le_refl _, fun x hx => hx, hm.2.2.2.2.1⟩
    case finishRun => exact ⟨le_refl _, fun x hx => hx, hm.2.2.2.2.1⟩
    case fatal => exact ⟨le_refl _, fun x hx => hx, hm.2.2.2.2.1⟩
    case handleOldStyleErrors =>
      split <;> exact ⟨le_refl _, fun x hx => hx, hm.2.2.2.2.1⟩
    case pdfLatexError =>
      split <;>
        exact ⟨(chainRead_spec c).1, fun x hx => (chainRead_spec c).2.2 x hx, hm.2.2.2.2.1⟩

theorem ltxGoF_abnormal (fuel : Nat) : ∀ (s : LaTexState) (c : Chain),
    mu3 c < fuel → (∀ l ∈ c.raw, wfLineB l = true) → s.badRunInvoked = false →
    ((ltxGoF fuel s c).1.badRunInvoked = true ↔ (ltxGoF fuel s c).1.done = false) ∧
    ((ltxGoF fuel s c).1.done = false → (ltxGoF fuel s c).2.1 = mkChain []) := by
  induction fuel with
  | zero => intro s c hmu; exact absurd hmu (Nat.not_lt_zero _)
  | succ n ih =>
    intro s c hmu hwf hbr
    have hcr := chainRead_spec c
    have hwp := ltxWrapup_props s
    unfold ltxGoF
    rcases hr : chainRead c with ⟨line, c1⟩
    rw [hr] at hcr
    dsimp only at hcr
    dsimp only
    by_cases hcond : (line.isEmpty || s.done) = true
    · simp only [hcond, if_true]
      constructor
      · rw [hwp.2.2.1, hwp.2.2.2, hbr]
        simp
      · intro hdone
        rw [hwp.2.2.1] at hdone
        have hsdone : s.done = false := hdone
        have hle : line.isEmpty = true := by
          rcases Bool.or_eq_true_iff.mp hcond with h1 | h1
          · exact h1
          · rw [h1] at hsdone; exact absurd hsdone (by simp)
        have hce := chainRead_empty c hwf (by rw [hr]; simpa using hle)
        have hc1 : c1 = c := by
          have := hce.2.2.2.2
          rw [hr] at this
          exact this
        rw [hc1]
        obtain ⟨raw0, lb0, mw0, pw0⟩ := c
        simp only at hce
        rw [hce.1, hce.2.1, hce.2.2.1, hce.2.2.2.1]
        rfl
    · simp only [hcond, Bool.false_eq_true, if_false]
      have hline : line ≠ [] := by
        intro h0
        rw [h0] at hcond
        simp at hcond
      have hstep := ltxStep_chain s (rstripNL line) c1
      have hmu2 : mu3 (ltxStep s (rstripNL line) c1).2 < n := by
        have := hcr.2.1 hline
        omega
      have hwf2 : ∀ l ∈ (ltxStep s (rstripNL line) c1).2.raw, wfLineB l = true :=
        fun l hl => hwf l (hcr.2.2 l (hstep.2.1 l hl))
      have hbr2 : (ltxStep s (rstripNL line) c1).1.badRunInvoked = false := by
        rw [hstep.2.2, hbr]
      have hih := ih (ltxStep s (rstripNL line) c1).1 (ltxStep s (rstripNL line) c1).2
        hmu2 hwf2 hbr2
      exact hih

theorem chainRead_neutral (l : Str) (rest : List Str) (h : chainNeutral l = true) :
    chainRead (mkChain (l :: rest)) = (l, mkChain rest) := by
  simp only [chainNeutral, Bool.and_eq_true, Bool.not_eq_true', decide_eq_false_iff_not,
    Option.isNone_iff_eq_none] at h
  obtain ⟨⟨⟨⟨h1, h2⟩, h3⟩, h4⟩, h5⟩ := h
  have hnl : nl80ReadAux (l :: rest) [] = (l, rest) := by
    unfold nl80ReadAux
    simp [h1, h2]
  unfold chainRead pwRead pwGet mwRead mwGet lbRead mkChain
  simp only [List.isEmpty_nil, Bool.not_true, Bool.false_eq_true, if_false, hnl, h1, h3, h4, h5]

theorem chainReadAllF_neutral : ∀ (lines : List Str) (fuel : Nat), lines.length < fuel →
    (∀ l ∈ lines, chainNeutral l = true) → chainReadAllF fuel (mkChain lines) = lines := by
  intro lines
  induction lines with
  | nil =>
    intro fuel hf _
    cases fuel with
    | zero => omega
    | succ n =>
      have h0 : chainRead (mkChain []) = ([], mkChain []) := by decide
      unfold chainReadAllF
      rw [h0]
      simp
  | cons l rest ih =>
    intro fuel hf hn
    cases fuel with
    | zero => omega
    | succ n =>
      have hl := hn l (List.mem_cons_self l rest)
      have hrd := chainRead_neutral l rest hl
      have h1 : l.isEmpty = false := by
        have h' := hl
        simp only [chainNeutral, Bool.and_eq_true, Bool.not_eq_true'] at h'
        exact h'.1.1.1.1
      unfold chainReadAllF
      rw [hrd]
      dsimp only
      rw [h1]
      simp only [Bool.false_eq_true, if_false]
      have hrec := ih n (by simp only [List.length_cons] at hf; omega)
        (fun x hx => hn x (List.mem_cons_of_mem _ hx))
      rw [hrec]

theorem bibErrDelta_le (l : Str) : bibErrDelta l ≤ 1 := by
  unfold bibErrDelta
  cases h : bibTag l with
  | none => simp
  | some t => cases t <;> simp

theorem bibWarnDelta_le (l : Str) : bibWarnDelta l ≤ 1 := by
  unfold bibWarnDelta
  cases h : bibTag l with
  | none => simp
  | some t => cases t <;> simp

theorem idxErrDelta_le (l : Str) : idxErrDelta l ≤ 1 := by
  unfold idxErrDelta
  split <;> simp

theorem ltxErrDelta_le (l : Str) : ltxErrDelta l ≤ 1 := by
  unfold ltxErrDelta
  cases h : ltxTag l with
  | none => simp
  | some t =>
    cases t <;> dsimp only <;> try split
    all_goals simp

theorem ltxWarnDelta_le (l : Str) : ltxWarnDelta l ≤ 1 := by
  unfold ltxWarnDelta
  cases h : ltxTag l with
  | none => simp
  | some t =>
    cases t <;> dsimp only <;> try split
    all_goals simp

/-! ## The claims -/

/-- C1, counterexample: the claim says no line is consumed from the shared
source without being dispatched.  On the two-line stream whose first line is
the latexmk up-to-date terminal marker, the orchestrator dispatches only that
marker (the trace has a single entry), yet the stream is left fully consumed:
the second line `tail` was read by `parseStream` right after the done flag
was set and dropped without being dispatched by any parser. -/
theorem claim_C1_lost_line_counterexample :
    (lmkParse none [lnUpToDate, lnTail]).2.1 = [] ∧
    (lmkParse none [lnUpToDate, lnTail]).2.2 = [(rstripNL lnUpToDate, 0, 0)] := by
  decide

/-- C1, amended: lines are never duplicated, but they can be consumed
without being dispatched, in three ways, each proved by one conjunct.
First conjunct (general): for the bibliography variant of the shared
`parseStream` loop — whose handlers never read from the stream — over every
start state and stream, the dispatched trace is exactly the newline-stripped
prefix of the consumed lines, each dispatched once and in order, and at most
one consumed line is dropped: the line read immediately after a handler set
the done flag (or a falsy line).  Second conjunct: the main-tool parser can
drop more than one line per run — on the four-line stream below all four
lines are consumed (the final chain is completely empty) while only two
statements are dispatched: `pdfLatexError` swallows `hello` with its
on-the-fly read and the post-done read swallows `tail`.  Third conjunct:
delegation drops statements pending in the sub-parser's normalizer buffers —
on the five-line orchestrator stream the delegated main-tool run dispatches
only the transcript marker and returns with `Next line` still sitting in the
multi-line-warning buffer and the warning statement already consumed, so
neither is ever dispatched by any parser, while the orchestrator dispatches
only the banner and the up-to-date marker. -/
theorem claim_C1_amended_accounting :
    (∀ (s : BibState) (stream : List Str),
      ∃ lost : List Str, lost.length ≤ 1 ∧
        stream = stream.take (bibGo s stream).2.2.length ++ lost ++ (bibGo s stream).2.1 ∧
        (bibGo s stream).2.2 = (stream.take (bibGo s stream).2.2.length).map rstripNL ∧
        (lost = [] ∨ ∃ x, lost = [x] ∧ ((bibGo s stream).1.done = true ∨ x.isEmpty = true))) ∧
    ((ltxParse none [lnPdfError, lnHello, lnTranscript, lnTail]).2.1 = mkChain [] ∧
     (ltxParse none [lnPdfError, lnHello, lnTranscript, lnTail]).2.2 =
       [rstripNL lnPdfError, rstripNL lnTranscript] ∧
     (ltxParse none [lnPdfError, lnHello, lnTranscript, lnTail]).1.numErrs = 1) ∧
    ((ltxParse none [lnTranscript, lnMWx, lnNextLine, lnUpToDate]).2.2 =
       [rstripNL lnTranscript] ∧
     (ltxParse none [lnTranscript, lnMWx, lnNextLine, lnUpToDate]).2.1.mwBuf = lnNextLine ∧
     (ltxParse none [lnTranscript, lnMWx, lnNextLine, lnUpToDate]).2.1.raw = [lnUpToDate] ∧
     (lmkParse none [lnThisIsLatex2e, lnTranscript, lnMWx, lnNextLine, lnUpToDate]).2.1 = [] ∧
     (lmkParse none [lnThisIsLatex2e, lnTranscript, lnMWx, lnNextLine, lnUpToDate]).2.2 =
       [(rstripNL lnThisIsLatex2e, 0, 0), (rstripNL lnUpToDate, 0, 0)]) :=
  ⟨fun s stream => bibGo_partition stream s, by decide, by decide⟩

/-- C2, counterexample: on the three-line stream (bibliography banner,
bibliography warning, latexmk up-to-date marker) the orchestrator's done flag
is false at the end of the run, not true as claimed: the delegated
bibliography parser, whose own `---` terminal separator never appears,
consumes the rest of the stream including the up-to-date marker, so the
orchestrator never dispatches it. -/
theorem claim_C2_done_counterexample :
    (lmkParse none [lnBibBanner, lnBibWarn, lnUpToDate]).1.done = false := by
  decide

/-- C2, amended: over the stream of one bibliography banner, one
bibliography warning and one up-to-date marker, the orchestrator run yields
`numErrs = 0`, `numWarns = 1`, `numRuns = 1` (hence at least one), and
`done = false` (the sub-parser consumed the terminal marker). -/
theorem claim_C2_delegation_accounting :
    (lmkParse none [lnBibBanner, lnBibWarn, lnUpToDate]).1.numErrs = 0 ∧
    (lmkParse none [lnBibBanner, lnBibWarn, lnUpToDate]).1.numWarns = 1 ∧
    (lmkParse none [lnBibBanner, lnBibWarn, lnUpToDate]).1.numRuns = 1 ∧
    (lmkParse none [lnBibBanner, lnBibWarn, lnUpToDate]).1.done = false := by
  decide

/-- C3, counterexample: for the orchestrator the claim fails.  On the
five-line stream (bibliography banner, a bibliography open-failure error,
the `---` separator, one padding line, a `Run number` marker) the
orchestrator's trace records `numErrs = 1` right after the first dispatch
(the delegated bibliography parser counted one error) and `numErrs = 0`
right after the second (`newRun` reset both counters), so `numErrs`
decreases during the run, and the final count 0 is not the number of
statements dispatched to error handlers (one). -/
theorem claim_C3_reset_counterexample :
    (lmkParse none [lnBibBanner, lnBibErr, lnDashes, lnPad, lnRunNumber]).2.2 =
      [(rstripNL lnBibBanner, 1, 0), (rstripNL lnRunNumber, 0, 0)] ∧
    (lmkParse none [lnBibBanner, lnBibErr, lnDashes, lnPad, lnRunNumber]).1.numErrs = 0 := by
  decide

/-- C3, amended: for the base, main-tool, bibliography and index parser
variants the claim holds: every dispatch step leaves `numErrs` and
`numWarns` non-decreasing, and a full `parseStream` run ends with each
counter equal to the sum over the dispatched statements of that statement's
increment — each increment being 0 or 1, the sums are exactly the numbers of
statements dispatched to error and to warning handlers.  For the
orchestrator the run-boundary handler resets both counters and delegation
folds in sub-parser totals, so the property holds only between run
boundaries there. -/
theorem claim_C3_counter_accounting :
    (∀ (s : BibState) (l : Str),
      s.numErrs ≤ (bibStep s l).numErrs ∧ s.numWarns ≤ (bibStep s l).numWarns) ∧
    (∀ (s : IdxState) (l : Str),
      s.numErrs ≤ (idxStep s l).numErrs ∧ s.numWarns ≤ (idxStep s l).numWarns) ∧
    (∀ (s : TexState) (l : Str),
      s.numErrs ≤ (baseStep s l).numErrs ∧ s.numWarns ≤ (baseStep s l).numWarns) ∧
    (∀ (s : LaTexState) (l : Str) (c : Chain),
      s.numErrs ≤ (ltxStep s l c).1.numErrs ∧ s.numWarns ≤ (ltxStep s l c).1.numWarns) ∧
    (∀ l : Str, bibErrDelta l ≤ 1 ∧ bibWarnDelta l ≤ 1 ∧ idxErrDelta l ≤ 1 ∧
      ltxErrDelta l ≤ 1 ∧ ltxWarnDelta l ≤ 1) ∧
    (∀ lines : List Str,
      (bibParse lines).1.numErrs = ((bibParse lines).2.2.map bibErrDelta).sum ∧
      (bibParse lines).1.numWarns = ((bibParse lines).2.2.map bibWarnDelta).sum) ∧
    (∀ lines : List Str,
      (idxParse lines).1.numErrs = ((idxParse lines).2.2.map idxErrDelta).sum ∧
      (idxParse lines).1.numWarns = ((idxParse lines).2.2.map idxWarnDelta).sum) ∧
    (∀ lines : List Str,
      (baseParse lines).1.numErrs = 0 ∧ (baseParse lines).1.numWarns = 0) ∧
    (∀ (fn : Option Str) (lines : List Str),
      (ltxParse fn lines).1.numErrs = ((ltxParse fn lines).2.2.map ltxErrDelta).sum ∧
      (ltxParse fn lines).1.numWarns = ((ltxParse fn lines).2.2.map ltxWarnDelta).sum) := by
  refine ⟨?_, ?_, ?_, ?_, ?_, ?_, ?_, ?_, ?_⟩
  · intro s l
    have h := bibStep_counts s l
    omega
  · intro s l
    have h := idxStep_counts s l
    omega
  · intro s l
    exact ⟨le_refl _, le_refl _⟩
  · intro s l c
    have h := ltxStep_counts s l c
    omega
  · intro l
    exact ⟨bibErrDelta_le l, bibWarnDelta_le l, idxErrDelta_le l, ltxErrDelta_le l,
      ltxWarnDelta_le l⟩
  · intro lines
    have h := bibGo_counts lines bibInit
    simpa [bibParse, bibInit] using h
  · intro lines
    have h := idxGo_counts lines idxInit
    simpa [idxParse, idxInit] using h
  · intro lines
    have h := baseGo_counts lines baseInit
    have ez : ∀ tr : List Str, (tr.map baseErrDelta).sum = 0 ∧ (tr.map baseWarnDelta).sum = 0 := by
      intro tr
      induction tr with
      | nil => exact ⟨rfl, rfl⟩
      | cons a t iht =>
        refine ⟨?_, ?_⟩ <;> rw [List.map_cons, List.sum_cons]
        · rw [iht.1]; rfl
        · rw [iht.2]; rfl
    have e1 := (ez (baseGo baseInit lines).2.2).1
    have e2 := (ez (baseGo baseInit lines).2.2).2
    have h0e : baseInit.numErrs = 0 := rfl
    have h0w : baseInit.numWarns = 0 := rfl
    constructor
    · rw [show baseParse lines = baseGo baseInit lines from rfl]
      omega
    · rw [show baseParse lines = baseGo baseInit lines from rfl]
      omega
  · intro fn lines
    have h := ltxGoF_counts (8 * lines.length + 8) (ltxInit fn) (mkChain lines)
    simpa [ltxParse, ltxInit] using h

/-- C4: for every well-formed stream, the main-tool parser's `parseStream`
invokes the abnormal-termination hook `badRun` if and only if the statement
source was exhausted before the done flag was set (when the run ends with
the flag unset, the whole chain — raw lines and all pending buffers — is
empty, so the source really was exhausted); in particular the one-line
stream holding only a main-tool banner takes the abnormal-termination path
with zero errors, while the stream ending with a `Transcript written on`
terminal marker completes normally, with `badRun` not invoked. -/
theorem claim_C4_badrun_iff_exhausted :
    (∀ (fn : Option Str) (lines : List Str), (∀ l ∈ lines, wfLineB l = true) →
      (((ltxParse fn lines).1.badRunInvoked = true ↔ (ltxParse fn lines).1.done = false) ∧
       ((ltxParse fn lines).1.done = false → (ltxParse fn lines).2.1 = mkChain []))) ∧
    ((ltxParse (some fnTestTex) [lnLatexBanner]).1.badRunInvoked = true ∧
     (ltxParse (some fnTestTex) [lnLatexBanner]).1.done = false ∧
     (ltxParse (some fnTestTex) [lnLatexBanner]).1.numErrs = 0) ∧
    ((ltxParse (some fnTestTex) [lnLatexBanner, lnTranscript]).1.badRunInvoked = false ∧
     (ltxParse (some fnTestTex) [lnLatexBanner, lnTranscript]).1.done = true ∧
     (ltxParse (some fnTestTex) [lnLatexBanner, lnTranscript]).1.numErrs = 0) := by
  refine ⟨?_, by decide, by decide⟩
  intro fn lines hwf
  have hmu : mu3 (mkChain lines) < 8 * lines.length + 8 := by
    simp only [mu3, mkChain, bufW_nil]
    omega
  have hwf2 : ∀ l ∈ (mkChain lines).raw, wfLineB l = true := hwf
  have hbr : (ltxInit fn).badRunInvoked = false := rfl
  exact ltxGoF_abnormal (8 * lines.length + 8) (ltxInit fn) (mkChain lines) hmu hwf2 hbr

/-- C4, witness: the abnormal-termination equivalence instantiated on a
concrete well-formed stream. -/
theorem claim_C4_witness :
    (∀ l ∈ [lnHello, lnWorld], wfLineB l = true) ∧
    ((ltxParse none [lnHello, lnWorld]).1.badRunInvoked = true ↔
      (ltxParse none [lnHello, lnWorld]).1.done = false) :=
  ⟨by decide, (claim_C4_badrun_iff_exhausted.1 none [lnHello, lnWorld] (by decide)).1⟩

/-- C5, counterexample: the claim says the old-style handler classifies as an
error any statement containing `error` case-insensitively.  The statement
`! BAD ERROR` reaches `handleOldStyleErrors` and contains `error`
case-insensitively, yet the code (which searches for `[Ee]rror` only)
classifies it as a warning: `numWarns` is incremented and `numErrs` is not. -/
theorem claim_C5_uppercase_counterexample :
    ltxTag stmtOldERROR = some LtxTag.handleOldStyleErrors ∧
    specContainsErrorCI stmtOldERROR = true ∧
    (ltxStep (ltxInit none) stmtOldERROR (mkChain [])).1.numErrs = 0 ∧
    (ltxStep (ltxInit none) stmtOldERROR (mkChain [])).1.numWarns = 1 := by
  decide

/-- C5, amended: a statement dispatched to `handleOldStyleErrors` is
classified as an error (`numErrs` incremented by one, `numWarns` unchanged)
if and only if it contains `error` or `Error` as a substring — the pattern
`[Ee]rror`, case-insensitive in its first letter only — and otherwise as a
warning (`numWarns` incremented by one, `numErrs` unchanged). -/
theorem claim_C5_oldstyle_classification : ∀ (s : LaTexState) (l : Str) (c : Chain),
    ltxTag l = some LtxTag.handleOldStyleErrors →
    ((oldStyleIsError l = true →
        (ltxStep s l c).1.numErrs = s.numErrs + 1 ∧
        (ltxStep s l c).1.numWarns = s.numWarns) ∧
     (oldStyleIsError l = false →
        (ltxStep s l c).1.numWarns = s.numWarns + 1 ∧
        (ltxStep s l c).1.numErrs = s.numErrs)) := by
  intro s l c htag
  have hc := ltxStep_counts s l c
  unfold ltxErrDelta ltxWarnDelta at hc
  rw [htag] at hc
  constructor
  · intro herr
    rw [herr] at hc
    simp only [if_true] at hc
    omega
  · intro herr
    rw [herr] at hc
    simp only [Bool.false_eq_true, if_false] at hc
    omega

/-- C5, witness: the classification applied to the concrete old-style error
statement `! Some error here`. -/
theorem claim_C5_witness :
    ltxTag stmtOldError = some LtxTag.handleOldStyleErrors ∧
    oldStyleIsError stmtOldError = true ∧
    (ltxStep (ltxInit none) stmtOldError (mkChain [])).1.numErrs = (ltxInit none).numErrs + 1 ∧
    (ltxStep (ltxInit none) stmtOldError (mkChain [])).1.numWarns = (ltxInit none).numWarns :=
  ⟨by decide, by decide,
    ((claim_C5_oldstyle_classification (ltxInit none) stmtOldError (mkChain [])
      (by decide)).1 (by decide)).1,
    ((claim_C5_oldstyle_classification (ltxInit none) stmtOldError (mkChain [])
      (by decide)).1 (by decide)).2⟩

/-- C6, counterexample: the claim says the normalizer chain is the identity
on every stream without 80-character lines.  The two-line stream
`LaTeX Warning: x,` / `   y` has no 80-character line, yet the chain merges
the indented continuation into the warning and returns one statement, not
two. -/
theorem claim_C6_identity_counterexample :
    (∀ l ∈ [lnMWx, lnMWy], ¬l.length = 80) ∧
    chainStatements [lnMWx, lnMWy] ≠ [lnMWx, lnMWy] := by
  decide

/-- C6, amended: the normalizer chain is the identity — one statement per
physical line, each equal to its line — on every stream whose lines trigger
none of the stages: nonempty, not of length 80, not matching the
inline-warning splitter, not starting with `LaTeX Warning`, and not opening
a `Package NAME Warning:` message. -/
theorem claim_C6_neutral_identity : ∀ lines : List Str,
    (∀ l ∈ lines, chainNeutral l = true) → chainStatements lines = lines := by
  intro lines h
  exact chainReadAllF_neutral lines (8 * lines.length + 8) (by omega) h

/-- C6, witness: the identity on a concrete neutral two-line stream. -/
theorem claim_C6_witness :
    (∀ l ∈ [lnHello, lnWorld], chainNeutral l = true) ∧
    chainStatements [lnHello, lnWorld] = [lnHello, lnWorld] :=
  ⟨by decide, claim_C6_neutral_identity [lnHello, lnWorld] (by decide)⟩

/-- C7: on the three physical lines of the multi-line package-request
warning, the normalizer yields exactly two statements: the warning with its
continuation merged in — the first line's trailing newline stripped, the
continuation left-trimmed, joined by a single space — and then `Next line`. -/
theorem claim_C7_warning_merge :
    normalizeStatements [lnWarnPkgA, lnWarnPkgCont, lnNextLine] =
      [lnMergedWarn, stmtNextLine] ∧
    (normalizeStatements [lnWarnPkgA, lnWarnPkgCont, lnNextLine]).length = 2 := by
  decide

/-- C8: a close marker processed while the file stack is empty is a no-op —
the pop is skipped, the stack stays empty and `currentFile` is untouched
(the total function `procMark` returns the state unchanged, so nothing is
raised); moreover the whole `parseLine` step on the statement `)` leaves a
fresh parser state and its chain completely unchanged. -/
theorem claim_C8_close_on_empty_stack :
    (∀ (s : LaTexState) (m : Char × Str), s.fileStack = [] → m.1 = ')' → procMark s m = s) ∧
    (∀ c : Chain, ltxStep (ltxInit none) stmtCloseParen c = (ltxInit none, c)) := by
  constructor
  · intro s m h1 h2
    unfold procMark
    rw [h2]
    simp [h1]
  · intro c
    have h1 : procMarks (ltxInit none) stmtCloseParen = ltxInit none := by decide
    have h2 : ltxTag stmtCloseParen = none := by decide
    unfold ltxStep
    rw [h1, h2]

/-- C8, witness: the no-op close marker on a concrete empty-stack state. -/
theorem claim_C8_witness : procMark (ltxInit none) (')', fnTestTex) = ltxInit none :=
  claim_C8_close_on_empty_stack.1 (ltxInit none) (')', fnTestTex) rfl rfl

/-- C9: whenever a bibliography-parser run ends with the done flag set and
fewer statements dispatched than the source held, `parseStream` has read
exactly one statement past the one that set the flag: the source is left at
the position two past the last dispatched statement, the dispatched trace is
exactly the newline-stripped prefix of the source, and the extra consumed
statement is not dispatched by this parser. -/
theorem claim_C9_extra_read_after_done : ∀ lines : List Str,
    (bibParse lines).1.done = true →
    (bibParse lines).2.2.length < lines.length →
    (bibParse lines).2.1 = lines.drop ((bibParse lines).2.2.length + 1) ∧
    (bibParse lines).2.2 = (lines.take (bibParse lines).2.2.length).map rstripNL :=
  fun lines => bibGo_done_skip lines bibInit

/-- C9, witness: on a four-line stream terminated by the `---` separator,
the padding line after the separator is consumed and dropped while the last
line remains unread. -/
theorem claim_C9_witness :
    ((bibParse [lnBibBanner, lnDashes, lnPad, lnTail]).1.done = true ∧
     (bibParse [lnBibBanner, lnDashes, lnPad, lnTail]).2.2.length <
       ([lnBibBanner, lnDashes, lnPad, lnTail] : List Str).length) ∧
    ((bibParse [lnBibBanner, lnDashes, lnPad, lnTail]).2.1 =
       ([lnBibBanner, lnDashes, lnPad, lnTail] : List Str).drop
         ((bibParse [lnBibBanner, lnDashes, lnPad, lnTail]).2.2.length + 1) ∧
     (bibParse [lnBibBanner, lnDashes, lnPad, lnTail]).2.2 =
       (([lnBibBanner, lnDashes, lnPad, lnTail] : List Str).take
         (bibParse [lnBibBanner, lnDashes, lnPad, lnTail]).2.2.length).map rstripNL) :=
  ⟨⟨by decide, by decide⟩,
    claim_C9_extra_read_after_done [lnBibBanner, lnDashes, lnPad, lnTail]
      (by decide) (by decide)⟩

/-- C10: the orchestrator's fatal flag is never affected by anything a
dispatch step does — in particular not by delegation, which folds only the
returned error and warning counts and discards the returned fatal flag;
concretely, a delegated main-tool run over ` ==> x` ends with its own
`isFatal = true`, while the orchestrator that spawned it on the same stream
ends with `isFatal = false`. -/
theorem claim_C10_fatal_not_propagated :
    (∀ (s : LmkState) (l : Str) (stream : List Str),
      (lmkStep s l stream).1.isFatal = s.isFatal) ∧
    (ltxParse none [lnFatalArrow]).1.isFatal = true ∧
    (lmkParse none [lnThisIsLatex2e, lnFatalArrow]).1.isFatal = false := by
  refine ⟨?_, by decide, by decide⟩
  intro s l stream
  unfold lmkStep
  cases h : lmkTag l with
  | none => rfl
  | some t => cases t <;> simp
